import Mathlib

/-!
Verification development for `src/graphs.py` of the spacex-graphs repository.

The Python module scrapes Wikipedia launch tables and turns them into a
normalized dataset of payload mass delivered to categorized orbits.  This file
gives a shallow embedding of the pure core of that module — string
normalization, the regex-based date/mass matchers, orbit classification, the
row parsers, the cache-fallback logic, the change-detection fingerprint and
the cumulative-series aggregation — and proves the specification's claims
about them.

Conventions of the embedding:
* Python strings are Lean `String`s; the character classes `\d`, `\w`, `\s`
  of the `re` patterns are modelled with their ASCII meaning (all inputs the
  program meets are ASCII in the relevant positions).
* Each `re.search` call is modelled by a dedicated matcher that scans start
  positions left to right exactly as the backtracking engine does; where the
  pattern admits backtracking (e.g. `\d{1,2}` or `(\w+)\s*(\d{4})`) the
  matcher reproduces the greedy/backtracking order, as noted at each matcher.
* Fallible Python code (exceptions) is modelled with `Except`/`Option`;
  filesystem and HTTP state is passed explicitly.
-/

namespace SpacexGraphs

/-- Characters removed by Python `str.strip()` (the ASCII whitespace set). -/
def pyIsSpace (c : Char) : Bool :=
  c = ' ' || c = '\t' || c = '\n' || c = '\r' || c = '\x0b' || c = '\x0c'

/-- Model of Python `str.strip()` on a character list. -/
def pyStripChars (cs : List Char) : List Char :=
  ((cs.dropWhile pyIsSpace).reverse.dropWhile pyIsSpace).reverse

/-- Model of Python `str.strip()`. -/
def pyStrip (s : String) : String := ⟨pyStripChars s.data⟩

/-- Model of Python `str.lower()` (ASCII range, which covers every input). -/
def pyLower (s : String) : String := ⟨s.data.map Char.toLower⟩

/-- Does `hay` start with `needle`? (first argument is the needle). -/
def chStartsWith : List Char → List Char → Bool
  | [], _ => true
  | _ :: _, [] => false
  | a :: as, b :: bs => a == b && chStartsWith as bs

/-- Model of the Python substring test `needle in hay` on character lists. -/
def chContains (needle : List Char) : List Char → Bool
  | [] => chStartsWith needle []
  | c :: t => chStartsWith needle (c :: t) || chContains needle t

/-- Model of the Python substring test `needle in hay` on strings. -/
def pyContains (hay needle : String) : Bool := chContains needle.data hay.data

/-! ### Orbit classification (`clean_orbit_category`, `categorize_starlink`) -/

/-- Scan for the closing `]` of the non-greedy pattern `\[.*?\]`: the first
`]` after the opening bracket, provided no newline intervenes (`.` does not
match a newline).  Returns the remainder after the `]`. -/
def findClose : List Char → Option (List Char)
  | [] => none
  | ']' :: r => some r
  | '\n' :: _ => none
  | _ :: r => findClose r

/-- Model of `re.sub(r"\[.*?\]", "", s)`: left-to-right scan; at each `[` the
nearest following `]` (with no newline in between) closes the match and the
whole span is dropped; at a `[` with no such `]` the scan keeps the
character and advances one position, like the regex engine.  The `fuel`
argument is only a termination device: each step consumes at least one input
character, so `fuel = length` never runs out. -/
def removeBracketsAux : Nat → List Char → List Char
  | 0, cs => cs
  | _ + 1, [] => []
  | fuel + 1, '[' :: r =>
    match findClose r with
    | some rest => removeBracketsAux fuel rest
    | none => '[' :: removeBracketsAux fuel r
  | fuel + 1, c :: r => c :: removeBracketsAux fuel r

/-- Model of `re.sub(r"\[.*?\]", "", s)`. -/
def removeBrackets (cs : List Char) : List Char := removeBracketsAux cs.length cs

/-- The lookup table of `clean_orbit_category`, verbatim from the source.
(The keys that themselves contain `[...]` are unreachable because the
bracket stripping runs before the lookup, but they are kept to mirror the
code.) -/
def orbit_mapping : List (String × String) :=
  [("Ballistic lunar transfer (BLT)", "BLT"),
   ("GEO", "GTO/GEO"),
   ("GTO", "GTO/GEO"),
   ("GTO[338]", "GTO/GEO"),
   ("GTO[356]", "GTO/GEO"),
   ("GTO[399]", "GTO/GEO"),
   ("HEO for P/2 orbit", "Other"),
   ("Heliocentric", "Heliocentric"),
   ("Heliocentric0.99-1.67 AU[251](close to Mars transfer orbit)", "Heliocentric"),
   ("LEO", "LEO (Other)"),
   ("LEO (ISS)", "LEO (Other)"),
   ("LEO (Starlink)", "LEO (Starlink)"),
   ("LEO / MEO", "Other"),
   ("LEO[172]", "LEO (Other)"),
   ("MEO", "MEO"),
   ("Polar LEO", "LEO (Other)"),
   ("Polar orbit LEO", "LEO (Other)"),
   ("Retrograde LEO", "LEO (Other)"),
   ("SSO", "SSO (Other)"),
   ("SSO (Starlink)", "SSO (Starlink)"),
   ("Sun-Earth L1 insertion", "Other"),
   ("Sun-Earth L2 injection", "Other"),
   ("Transatmospheric", "Transatmospheric"),
   ("—", "Transatmospheric")]

/-- Model of `clean_orbit_category`: strip bracketed footnotes, trim
whitespace, look the label up in `orbit_mapping`, defaulting to `"Other"`
(`dict.get` with a default never raises). -/
def clean_orbit_category (orbit : String) : String :=
  (orbit_mapping.lookup (pyStrip ⟨removeBrackets orbit.data⟩)).getD "Other"

/-- Model of `categorize_starlink`: append the Starlink qualifier to the raw
orbit string whenever the payload text contains `"Starlink"`. -/
def categorize_starlink (payload orbit : String) : String :=
  if pyContains payload "Starlink" then orbit ++ " (Starlink)" else orbit

/-- The closed 10-category output set, in the source's legend order. -/
def orbitCategories : List String :=
  ["LEO (Starlink)", "LEO (Other)", "SSO (Starlink)", "SSO (Other)", "MEO",
   "GTO/GEO", "BLT", "Heliocentric", "Transatmospheric", "Other"]

/-! ### Falcon payload-mass parsing (`parse_payload_mass_text`) -/

/-- The character class `[\d,]` (ASCII). -/
def isDigitComma (c : Char) : Bool := c.isDigit || c = ','

/-- Attempt the pattern `(\d[\d,]*)\s*(?:-|to)\s*(\d[\d,]*)` (IGNORECASE) at
one start position.  Greedy `[\d,]*` and `\s*` need no backtracking here:
their character classes are disjoint from each other and from `-`/`to`, so
the maximal-munch reading coincides with the regex engine's. -/
def rangeAt (cs : List Char) : Option (List Char × List Char) :=
  match cs with
  | [] => none
  | c :: r =>
    if c.isDigit then
      let r2 := (r.dropWhile isDigitComma).dropWhile pyIsSpace
      let r3? : Option (List Char) :=
        match r2 with
        | '-' :: t => some t
        | a :: b :: t =>
          if (a = 't' || a = 'T') && (b = 'o' || b = 'O') then some t else none
        | _ => none
      match r3? with
      | none => none
      | some r3 =>
        match r3.dropWhile pyIsSpace with
        | d :: r5 =>
          if d.isDigit then
            some (c :: r.takeWhile isDigitComma, d :: r5.takeWhile isDigitComma)
          else none
        | [] => none
    else none

/-- `re.search` of the range pattern: try each start position left to right. -/
def rangeSearch : List Char → Option (List Char × List Char)
  | [] => none
  | c :: r =>
    match rangeAt (c :: r) with
    | some m => some m
    | none => rangeSearch r

/-- `re.search(r"(\d[\d,]*)", s)`: first digit starts the match, then the
maximal `[\d,]*` run. -/
def firstIntSearch : List Char → Option (List Char)
  | [] => none
  | c :: r => if c.isDigit then some (c :: r.takeWhile isDigitComma) else firstIntSearch r

/-- `int(group.replace(",", ""))` for a group matched from digits and commas. -/
def intOfDigitsCommas (ds : List Char) : Nat :=
  (ds.filter (fun c => c ≠ ',')).foldl (fun a c => a * 10 + (c.toNat - 48)) 0

/-- `int(round((a + b) / 2))` for naturals `a`, `b`: the float `(a+b)/2` is
exact for every realistic mass (`a + b < 2^53`), an even sum halves exactly,
and an odd sum gives an exact `k + 0.5` which Python's `round` resolves by
rounding half to even. -/
def pyRoundHalfNat (s : Nat) : Nat :=
  if s % 2 = 0 then s / 2
  else if (s / 2) % 2 = 0 then s / 2 else s / 2 + 1

/-- En/em dash normalization `s.replace("–", "-").replace("—", "-")`
applied after `strip()`, exactly as the source does. -/
def normMass (text : String) : List Char :=
  (pyStripChars text.data).map (fun c => if c = '–' || c = '—' then '-' else c)

/-- Model of `parse_payload_mass_text`: empty text gives 0; else a numeric
range averages the two bounds; else the first integer; else 0. -/
def parse_payload_mass_text (text : String) : Nat :=
  if text.data = [] then 0
  else
    match rangeSearch (normMass text) with
    | some (a, b) => pyRoundHalfNat (intOfDigitsCommas a + intOfDigitsCommas b)
    | none =>
      match firstIntSearch (normMass text) with
      | some d => intOfDigitsCommas d
      | none => 0

/-! ### Date and time extraction (the two date patterns and the time pattern) -/

/-- The character class `\w` (ASCII): letters, digits, underscore. -/
def isWordCh (c : Char) : Bool := c.isAlpha || c.isDigit || c = '_'

/-- Exactly four digits at the head of the list (`\d{4}`; no constraint on
what follows, since the pattern ends there). -/
def fourDigitsAt : List Char → Option (List Char)
  | a :: b :: c :: d :: _ =>
    if a.isDigit && b.isDigit && c.isDigit && d.isDigit then some [a, b, c, d] else none
  | _ => none

/-- Backtracking of the greedy `(\w+)\s*(\d{4})` tail of the first date
pattern when the maximal word run `w` followed by whitespace does not end in
four digits: shrink the `\w+` group from the right (month lengths
`w.length - 1` down to `1`).  After a shortened group the next character is
a word character, so `\s*` must match nothing and `\d{4}` starts right
there. -/
def pat1Split (day w r3 : List Char) : Nat → Option (List Char × List Char × List Char)
  | 0 => none
  | k + 1 =>
    match fourDigitsAt (w.drop (k + 1) ++ r3) with
    | some y => some (day, w.take (k + 1), y)
    | none => pat1Split day w r3 k

/-- Continuation of the pattern `(\d{1,2})\s+(\w+)\s*(\d{4})` after the day
digits: `\s+` and `\w+` are maximal runs (their classes are disjoint from
each other), then the greedy year split. -/
def pat1Cont (day rest : List Char) : Option (List Char × List Char × List Char) :=
  if (rest.takeWhile pyIsSpace).isEmpty then none
  else
    let r2 := rest.dropWhile pyIsSpace
    let w := r2.takeWhile isWordCh
    if w.isEmpty then none
    else
      let r3 := r2.dropWhile isWordCh
      match fourDigitsAt (r3.dropWhile pyIsSpace) with
      | some y => some (day, w, y)
      | none => pat1Split day w r3 (w.length - 1)

/-- The pattern `(\d{1,2})\s+(\w+)\s*(\d{4})` at one start position.  When
two digits open the match the one-digit backtrack can never succeed (the
second digit cannot match `\s+`), so committing to the two-digit day is
faithful. -/
def pat1At : List Char → Option (List Char × List Char × List Char)
  | [] => none
  | [_] => none
  | a :: b :: r =>
    if a.isDigit && b.isDigit then pat1Cont [a, b] r
    else if a.isDigit then pat1Cont [a] (b :: r)
    else none

/-- `re.search` of the primary date pattern `(\d{1,2})\s+(\w+)\s*(\d{4})`:
groups are (day, month word, year). -/
def searchPat1 : List Char → Option (List Char × List Char × List Char)
  | [] => none
  | c :: r =>
    match pat1At (c :: r) with
    | some m => some m
    | none => searchPat1 r

/-- The `,?\s*(\d{4})` tail of the secondary date pattern after the day
digits.  A present comma is consumed greedily; if the tail then fails, the
backtrack (not taking the comma) dies immediately because `\s*` and `\d`
cannot match a comma — so the two branches are exclusive. -/
def pat2Day (w day rest : List Char) : Option (List Char × List Char × List Char) :=
  match rest with
  | ',' :: t => (fourDigitsAt (t.dropWhile pyIsSpace)).map (fun y => (w, day, y))
  | _ => (fourDigitsAt (rest.dropWhile pyIsSpace)).map (fun y => (w, day, y))

/-- The pattern `(\w+)\s+(\d{1,2}),?\s*(\d{4})` at one start position: the
`\w+` group must be the maximal run (a shortened run leaves a word character
where `\s+` must match), `\s+` is maximal, and `\d{1,2}` tries two digits
then backtracks to one. -/
def pat2At (cs : List Char) : Option (List Char × List Char × List Char) :=
  let w := cs.takeWhile isWordCh
  if w.isEmpty then none
  else
    let r1 := cs.dropWhile isWordCh
    if (r1.takeWhile pyIsSpace).isEmpty then none
    else
      match r1.dropWhile pyIsSpace with
      | [] => none
      | [a] => if a.isDigit then pat2Day w [a] [] else none
      | a :: b :: t =>
        if a.isDigit && b.isDigit then
          match pat2Day w [a, b] t with
          | some m => some m
          | none => pat2Day w [a] (b :: t)
        else if a.isDigit then pat2Day w [a] (b :: t)
        else none

/-- `re.search` of the secondary date pattern `(\w+)\s+(\d{1,2}),?\s*(\d{4})`:
groups are (month word, day, year). -/
def searchPat2 : List Char → Option (List Char × List Char × List Char)
  | [] => none
  | c :: r =>
    match pat2At (c :: r) with
    | some m => some m
    | none => searchPat2 r

/-- Numeric value of a digit string (`int` on `\d+`). -/
def digitsVal (ds : List Char) : Nat := ds.foldl (fun a c => a * 10 + (c.toNat - 48)) 0

/-- The pattern `(\d{2}):(\d{2})` at one start position. -/
def timeAt : List Char → Option (Nat × Nat)
  | a :: b :: ':' :: c :: d :: _ =>
    if a.isDigit && b.isDigit && c.isDigit && d.isDigit then
      some (digitsVal [a, b], digitsVal [c, d])
    else none
  | _ => none

/-- `re.search(r"(\d{2}):(\d{2})", s)`: (hour, minute) as numbers. -/
def timeSearch : List Char → Option (Nat × Nat)
  | [] => none
  | c :: r =>
    match timeAt (c :: r) with
    | some m => some m
    | none => timeSearch r

/-! ### Month resolution and row parsing -/

/-- The fixed month-abbreviation table of `strptime`'s `%b` in the C locale
(matched case-insensitively). -/
def monthAbbrevs : List (String × Nat) :=
  [("jan", 1), ("feb", 2), ("mar", 3), ("apr", 4), ("may", 5), ("jun", 6),
   ("jul", 7), ("aug", 8), ("sep", 9), ("oct", 10), ("nov", 11), ("dec", 12)]

/-- Model of `month_to_int`, i.e. `strptime(month_name, "%b").month`:
case-insensitive lookup of the three-letter abbreviation; `none` models the
`ValueError` that `strptime` raises on an unresolvable month name. -/
def month_to_int (m : String) : Option Nat := monthAbbrevs.lookup (pyLower m)

/-- Gregorian leap year, as `datetime` uses it. -/
def isLeap (y : Nat) : Bool := (y % 4 = 0 && y % 100 ≠ 0) || y % 400 = 0

/-- Days in a month, as `datetime` uses it. -/
def daysInMonth (y mo : Nat) : Nat :=
  if mo = 2 then (if isLeap y then 29 else 28)
  else if mo = 4 || mo = 6 || mo = 9 || mo = 11 then 30 else 31

/-- A `datetime.datetime` value: year, month, day, hour, minute (seconds and
microseconds are always zero in this program). -/
structure DT where
  y : Nat
  mo : Nat
  d : Nat
  h : Nat
  mi : Nat
deriving DecidableEq, Repr

/-- The fatal parse errors the row parsers can raise (Python exceptions). -/
inductive ParseErr where
  | badMonth
  | badDate
  | badTime
deriving DecidableEq, Repr

instance {ε α : Type} [DecidableEq ε] [DecidableEq α] : DecidableEq (Except ε α) :=
  fun a b =>
    match a, b with
    | .error e₁, .error e₂ =>
      if h : e₁ = e₂ then isTrue (by rw [h]) else isFalse (by simp [h])
    | .ok x, .ok y => if h : x = y then isTrue (by rw [h]) else isFalse (by simp [h])
    | .error _, .ok _ => isFalse (by simp)
    | .ok _, .error _ => isFalse (by simp)

/-- The date groups the row parsers extract: primary pattern first, else the
secondary pattern, normalized to (day, month word, year). -/
def dateGroups (cs : List Char) : Option (List Char × List Char × List Char) :=
  match searchPat1 cs with
  | some (d, mw, y) => some (d, mw, y)
  | none =>
    match searchPat2 cs with
    | some (mw, d, y) => some (d, mw, y)
    | none => none

/-- The shared date/time extraction of both row parsers: no pattern match
skips the row (`ok none`); an unresolvable month name is fatal
(`month_to_int` raises); `datetime.date`/`datetime.time` validate their
arguments and raise on an out-of-range day, hour or minute; a missing
`HH:MM` defaults the time to 00:00. -/
def parseDateCol (dateCol : String) : Except ParseErr (Option DT) :=
  match dateGroups dateCol.data with
  | none => .ok none
  | some (d, mw, y) =>
    match month_to_int ⟨mw.take 3⟩ with
    | none => .error .badMonth
    | some mo =>
      if digitsVal y = 0 then .error .badDate
      else if digitsVal d = 0 || daysInMonth (digitsVal y) mo < digitsVal d then
        .error .badDate
      else
        match timeSearch dateCol.data with
        | some (h, mi) =>
          if 24 ≤ h || 60 ≤ mi then .error .badTime
          else .ok (some ⟨digitsVal y, mo, digitsVal d, h, mi⟩)
        | none => .ok (some ⟨digitsVal y, mo, digitsVal d, 0, 0⟩)

/-- A parsed launch record, i.e. the tuple
`(year, orbit, payload, payload_mass, datetime_launch, vehicle)`. -/
structure LaunchRec where
  year : Nat
  orbit : String
  payload : String
  payloadMassKg : Nat
  dt : DT
  vehicle : String
deriving DecidableEq, Repr

/-- Model of the Falcon row-parsing body of `fetch_and_parse`.  The input is
the list of cell texts of one table row (`cols[i].text`; `cols[0]` is the
already-extracted `get_text(separator=" ", strip=True)` date text).  `ok
none` models a silently skipped row (wrong cell count or no date match). -/
def parseFalconRow (cols : List String) : Except ParseErr (Option LaunchRec) :=
  if cols.length = 9 || cols.length = 11 then
    match parseDateCol (cols.getD 0 "") with
    | .error e => .error e
    | .ok none => .ok none
    | .ok (some dt) =>
      let booster := pyStrip (cols.getD 1 "")
      let payload := pyStrip (cols.getD 3 "")
      let massText := pyStrip (cols.getD 4 "")
      let orbit := pyStrip (cols.getD 5 "")
      let outcome := pyLower (pyStrip (cols.getD 7 ""))
      let mass := if pyContains outcome "success" then parse_payload_mass_text massText else 0
      let vehicle :=
        if pyContains booster "Heavy" || pyContains booster "FH" then "Falcon Heavy"
        else "Falcon 9"
      .ok (some ⟨dt.y, orbit, payload, mass, dt, vehicle⟩)
  else .ok none

/-- The pattern `Block\s+(\d+)` at one start position (case-sensitive). -/
def blockAt : List Char → Option (List Char)
  | 'B' :: 'l' :: 'o' :: 'c' :: 'k' :: r =>
    if (r.takeWhile pyIsSpace).isEmpty then none
    else
      let ds := (r.dropWhile pyIsSpace).takeWhile Char.isDigit
      if ds.isEmpty then none else some ds
  | _ => none

/-- `re.search(r"Block\s+(\d+)", s)`. -/
def blockSearch : List Char → Option (List Char)
  | [] => none
  | c :: r =>
    match blockAt (c :: r) with
    | some m => some m
    | none => blockSearch r

/-- The pattern `~?([\d,]+)\s*kg` at one start position: an optional tilde,
then the maximal `[\d,]+` run (which may start with a comma), optional
whitespace, then the literal `kg`. -/
def starshipMassAt (cs : List Char) : Option (List Char) :=
  let num : List Char → Option (List Char) := fun t =>
    let run := t.takeWhile isDigitComma
    if run.isEmpty then none
    else
      match (t.dropWhile isDigitComma).dropWhile pyIsSpace with
      | 'k' :: 'g' :: _ => some run
      | _ => none
  match cs with
  | '~' :: r => num r
  | _ => num cs

/-- `re.search(r"~?([\d,]+)\s*kg", s)`. -/
def starshipMassSearch : List Char → Option (List Char)
  | [] => none
  | c :: r =>
    match starshipMassAt (c :: r) with
    | some m => some m
    | none => starshipMassSearch r

/-- Model of the Starship row-parsing body of `fetch_and_parse_starship`
(11-cell rows; ship version in column 2, payload in 4, mass in 5, orbit in
6, outcome in 8). -/
def parseStarshipRow (cols : List String) : Except ParseErr (Option LaunchRec) :=
  if cols.length = 11 then
    match parseDateCol (cols.getD 0 "") with
    | .error e => .error e
    | .ok none => .ok none
    | .ok (some dt) =>
      let shipVersion := pyStrip (cols.getD 2 "")
      let payload0 := pyStrip (cols.getD 4 "")
      let massText := pyStrip (cols.getD 5 "")
      let orbit := pyStrip (cols.getD 6 "")
      let outcome := pyLower (pyStrip (cols.getD 8 ""))
      let vehicle :=
        match blockSearch shipVersion.data with
        | some ds => "Block " ++ (⟨ds⟩ : String) ++ " Starship"
        | none => "Starship"
      let mass :=
        if pyContains outcome "success" then
          match starshipMassSearch massText.data with
          | some run => intOfDigitsCommas run
          | none => 0
        else 0
      let payload := if payload0 = "—" || payload0 = "" then "Starship Test" else payload0
      .ok (some ⟨dt.y, orbit, payload, mass, dt, vehicle⟩)
  else .ok none

/-! ### HTTP fetch with cache (`fetch_with_cache`)

The response (or transport failure) is an exogenous input of the model; the
on-disk cache entry for the URL's key is explicit state.  `requests.get`
raises on a transport failure before any of the fallback logic runs, and
`raise_for_status()` raises exactly for 4xx/5xx statuses. -/

/-- An HTTP response as `fetch_with_cache` consumes it. -/
structure HttpResponse where
  status : Nat
  body : List Nat
  etag : Option String
  lastModified : Option String
deriving DecidableEq, Repr

/-- Outcome of `requests.get`: a response, or a transport failure
(connection error / timeout), which in Python is an exception thrown out of
`requests.get` itself. -/
inductive FetchOutcome where
  | transportFailure : FetchOutcome
  | response : HttpResponse → FetchOutcome
deriving DecidableEq, Repr

/-- The per-URL cache entry: metadata (etag, last-modified) and content. -/
structure CacheState where
  etag : Option String
  lastModified : Option String
  content : Option (List Nat)
deriving DecidableEq, Repr

/-- The exceptions `fetch_with_cache` can let escape. -/
inductive FetchErr where
  | transport : FetchErr
  | httpStatus : Nat → FetchErr
deriving DecidableEq, Repr

/-- The conditional headers attached from cached metadata
(`If-None-Match` / `If-Modified-Since`). -/
def requestHeaders (base : List (String × String)) (st : CacheState) : List (String × String) :=
  base ++
    (match st.etag with | some e => [("If-None-Match", e)] | none => []) ++
    (match st.lastModified with
     | some lm => [("If-Modified-Since", lm)]
     | none => [])

/-- Model of `fetch_with_cache`.  Returns the bytes and the cache state
after the call, or the escaping exception.  A transport failure escapes
unconditionally (the `requests.get` call is not wrapped in any handler); a
304 with cached content returns the cache; a 200 overwrites the cache and
returns the fresh bytes; any other status falls back to cached content when
present, and otherwise `raise_for_status()` raises only for 4xx/5xx, so a
remaining non-error status returns the response body. -/
def fetch_with_cache (st : CacheState) (outcome : FetchOutcome) :
    Except FetchErr (List Nat × CacheState) :=
  match outcome with
  | .transportFailure => .error .transport
  | .response resp =>
    if resp.status = 304 && st.content.isSome then
      .ok (st.content.getD [], st)
    else if resp.status = 200 then
      .ok (resp.body, ⟨resp.etag, resp.lastModified, some resp.body⟩)
    else
      match st.content with
      | some c => .ok (c, st)
      | none =>
        if 400 ≤ resp.status && resp.status < 600 then .error (.httpStatus resp.status)
        else .ok (resp.body, st)

/-! ### Canonical serialization and fingerprint (`compute_data_hash`)

`compute_data_hash` is `sha256(json.dumps(sorted(data), sort_keys=True,
default=str))`.  The record tuples are sorted lexicographically (ints,
strings by code points, datetimes chronologically), serialized as JSON
arrays with `", "` separators, `ensure_ascii` escaping for strings and
`str(datetime)` for the timestamps.  SHA-256 itself is kept abstract (the
`sha` parameter): every claim is about the canonical pre-hash string, to
which any hash function is then applied. -/

/-- The sort key of a record: the Python tuple
`(year, orbit, payload, mass, datetime, vehicle)` under lexicographic
comparison, with the datetime compared chronologically, i.e.
lexicographically on its components. -/
def recKey (r : LaunchRec) :
    Lex (Nat × Lex (String × Lex (String × Lex (Nat ×
      Lex (Lex (Nat × Lex (Nat × Lex (Nat × Lex (Nat × Nat)))) × String))))) :=
  toLex (r.year, toLex (r.orbit, toLex (r.payload, toLex (r.payloadMassKg,
    toLex (toLex (r.dt.y, toLex (r.dt.mo, toLex (r.dt.d, toLex (r.dt.h, r.dt.mi)))),
      r.vehicle)))))

/-- Python's `<=` on the record tuples. -/
def recLe (a b : LaunchRec) : Prop := recKey a ≤ recKey b

instance : DecidableRel recLe := fun a b => inferInstanceAs (Decidable (recKey a ≤ recKey b))

instance : IsTotal LaunchRec recLe := ⟨fun a b => le_total (recKey a) (recKey b)⟩

instance : IsTrans LaunchRec recLe := ⟨fun _ _ _ h₁ h₂ => le_trans h₁ h₂⟩

/-- Model of `sorted(data)`: the unique reordering sorted by the total
order `recLe` (any sorting algorithm produces it, since ties are identical
tuples). -/
def sortRecs (l : List LaunchRec) : List LaunchRec := List.insertionSort recLe l

/-- The ten decimal digit characters. -/
def decDigits : List Char :=
  ['0', '1', '2', '3', '4', '5', '6', '7', '8', '9']

/-- The sixteen lowercase hex digit characters. -/
def hexDigits : List Char :=
  decDigits ++ ['a', 'b', 'c', 'd', 'e', 'f']

/-- The character of a digit value (used base 10 and base 16). -/
def digitCh (n : Nat) : Char := hexDigits.getD n '0'

/-- Decimal digits of a natural number, most significant first (`str(n)`
for a nonnegative int). -/
def natChars (n : Nat) : List Char :=
  if _h : n < 10 then [digitCh n] else natChars (n / 10) ++ [digitCh (n % 10)]
decreasing_by exact Nat.div_lt_self (by omega) (by omega)

/-- Four lowercase hex digits (`"%04x"` for values below `0x10000`). -/
def hex4 (n : Nat) : List Char :=
  [digitCh (n / 4096 % 16), digitCh (n / 256 % 16), digitCh (n / 16 % 16), digitCh (n % 16)]

/-- `json.dumps` escaping of one character with `ensure_ascii=True`:
printable ASCII other than quote and backslash is literal; quote, backslash
and the five controls with shorthands are two-character escapes; everything
else becomes `\uXXXX`, with a surrogate pair above `0xFFFF`. -/
def encodeChar (c : Char) : List Char :=
  if c = '"' then ['\\', '"']
  else if c = '\\' then ['\\', '\\']
  else if 0x20 ≤ c.toNat && c.toNat ≤ 0x7e then [c]
  else if c.toNat = 8 then ['\\', 'b']
  else if c.toNat = 9 then ['\\', 't']
  else if c.toNat = 10 then ['\\', 'n']
  else if c.toNat = 12 then ['\\', 'f']
  else if c.toNat = 13 then ['\\', 'r']
  else if c.toNat < 0x10000 then '\\' :: 'u' :: hex4 c.toNat
  else
    '\\' :: 'u' :: hex4 (0xD800 + (c.toNat - 0x10000) / 0x400) ++
      '\\' :: 'u' :: hex4 (0xDC00 + (c.toNat - 0x10000) % 0x400)

/-- `json.dumps` escaping of a character sequence. -/
def encodeStr (cs : List Char) : List Char := cs.flatMap encodeChar

/-- A JSON string literal with its quotes. -/
def jsonStr (s : String) : List Char := '"' :: encodeStr s.data ++ ['"']

/-- `"%02d"`. -/
def pad2 (n : Nat) : List Char := if n < 10 then '0' :: natChars n else natChars n

/-- `"%04d"`. -/
def pad4 (n : Nat) : List Char :=
  if n < 10 then '0' :: '0' :: '0' :: natChars n
  else if n < 100 then '0' :: '0' :: natChars n
  else if n < 1000 then '0' :: natChars n
  else natChars n

/-- `str(datetime)` for a whole-minute datetime:
`YYYY-MM-DD HH:MM:SS` with seconds `00`. -/
def dtChars (d : DT) : List Char :=
  pad4 d.y ++ '-' :: pad2 d.mo ++ '-' :: pad2 d.d ++
    ' ' :: pad2 d.h ++ ':' :: pad2 d.mi ++ [':', '0', '0']

/-- One record tuple as `json.dumps` renders it (`default=str` turns the
datetime into `str(datetime)`, itself serialized as a JSON string). -/
def encRec (r : LaunchRec) : List Char :=
  '[' :: natChars r.year ++
    ',' :: ' ' :: jsonStr r.orbit ++
    ',' :: ' ' :: jsonStr r.payload ++
    ',' :: ' ' :: natChars r.payloadMassKg ++
    ',' :: ' ' :: jsonStr ⟨dtChars r.dt⟩ ++
    ',' :: ' ' :: jsonStr r.vehicle ++ [']']

/-- The record tuples joined by the default item separator `", "`. -/
def joinRecs : List LaunchRec → List Char
  | [] => []
  | [r] => encRec r
  | r :: rs => encRec r ++ ',' :: ' ' :: joinRecs rs

/-- The full canonical pre-hash serialization
`json.dumps(sorted(data), sort_keys=True, default=str)`. -/
def serializeChars (l : List LaunchRec) : List Char := '[' :: joinRecs (sortRecs l) ++ [']']

/-- The canonical pre-hash serialization as a string. -/
def serializeRecords (l : List LaunchRec) : String := ⟨serializeChars l⟩

/-- Model of `compute_data_hash`, with SHA-256 abstracted as `sha`. -/
def compute_data_hash (sha : String → String) (l : List LaunchRec) : String :=
  sha (serializeRecords l)

/-- Model of `has_data_changed`.  The persisted prior fingerprint (the
contents of `data_hash.txt`, `none` when the file does not exist) is
explicit state; the stored text is `strip()`ped before comparison, exactly
as the source reads it back.  Returns the boolean and the state of the file
after the call. -/
def has_data_changed (sha : String → String) (data : List LaunchRec)
    (stored : Option String) : Bool × Option String :=
  let newHash := compute_data_hash sha data
  match stored with
  | none => (true, some newHash)
  | some s => if pyStrip s ≠ newHash then (true, some newHash) else (false, some s)

/-! ### Cumulative per-year series (module-level code and
`add_end_of_period_entries`)

The plotted cumulative series uses only the `Year`, `PayloadMass` and
`DateTime` columns of each row: the plot groups the extended frame by
`Year`, sorts each group by `DateTime` and takes the running sum of
`PayloadMass` (it recomputes the cumulative sum; the stored
`CumulativePayloadMass` column and the other columns do not feed the
series, so they are not carried in `SEntry`).  DataFrame sorting is
modelled with a stable sort, matching the spec's stated "stable sort"
reading; the order among anchors for *different* years in the frame is
immaterial (groups are per-year), so `uniqueYears` uses `List.dedup` for
the duplicate-free year list. -/

/-- One row of the cumulative-series frame: the columns the series uses. -/
structure SEntry where
  year : Nat
  mass : Nat
  dt : DT
deriving DecidableEq, Repr

/-- An order-embedding key for chronological `DateTime` comparison of valid
datetimes (months below 13, days below 32, hours below 24, minutes below
60). -/
def dtKeyN (d : DT) : Nat :=
  (((d.y * 13 + d.mo) * 32 + d.d) * 24 + d.h) * 60 + d.mi

/-- The `sort_values(by="DateTime")` order. -/
def entryLe (a b : SEntry) : Prop := dtKeyN a.dt ≤ dtKeyN b.dt

instance : DecidableRel entryLe := fun _ _ => Nat.decLe _ _

instance : IsTotal SEntry entryLe := ⟨fun _ _ => Nat.le_total _ _⟩

instance : IsTrans SEntry entryLe := ⟨fun _ _ _ h₁ h₂ => Nat.le_trans h₁ h₂⟩

/-- Stable sort by `DateTime`. -/
def sortEntries (l : List SEntry) : List SEntry := List.insertionSort entryLe l

/-- `datetime(year, 1, 1)`. -/
def jan1DT (y : Nat) : DT := ⟨y, 1, 1, 0, 0⟩

/-- `datetime(year, 12, 31)`. -/
def dec31DT (y : Nat) : DT := ⟨y, 12, 31, 0, 0⟩

/-- The successor day (`+ timedelta(days=1)`), carrying month and year. -/
def nextDayDT (d : DT) : DT :=
  if d.d < daysInMonth d.y d.mo then ⟨d.y, d.mo, d.d + 1, d.h, d.mi⟩
  else if d.mo < 12 then ⟨d.y, d.mo + 1, 1, d.h, d.mi⟩
  else ⟨d.y + 1, 1, 1, d.h, d.mi⟩

/-- `+ timedelta(days=n)`. -/
def addDaysDT (d : DT) : Nat → DT
  | 0 => d
  | n + 1 => nextDayDT (addDaysDT d n)

/-- `df["Year"].unique()` as a duplicate-free list. -/
def uniqueYears (l : List SEntry) : List Nat := (l.map SEntry.year).dedup

/-- The synthetic start-of-year rows: for each year 2017 onwards, a zero-mass
row at January 1 (module-level `initial_entries`). -/
def initialEntries (years : List Nat) : List SEntry :=
  (years.filter (fun y => 2017 ≤ y)).map (fun y => ⟨y, 0, jan1DT y⟩)

/-- The synthetic end-of-period rows of `add_end_of_period_entries`: one
zero-additional-mass row per year, at December 31 for completed years and
at `datetime(year, 1, 1) + timedelta(days=currentDayOfYear - 1)` for the
current year. -/
def endOfPeriodEntries (currentYear currentDoy : Nat) (years : List Nat) : List SEntry :=
  years.map (fun y =>
    ⟨y, 0, if y = currentYear then addDaysDT (jan1DT y) (currentDoy - 1) else dec31DT y⟩)

/-- Model of `add_end_of_period_entries`: append one end-of-period row per
year of the frame, then sort by `DateTime`. -/
def add_end_of_period_entries (currentYear currentDoy : Nat) (l : List SEntry) :
    List SEntry :=
  sortEntries (l ++ endOfPeriodEntries currentYear currentDoy (uniqueYears l))

/-- The module-level frame fed to the cumulative plot: launches sorted by
`DateTime`, initial zero rows prepended for years 2017 onwards, filtered to
years 2017 onwards (`df_filtered`), then extended with end-of-period rows. -/
def extendedFrame (launches : List SEntry) (currentYear currentDoy : Nat) : List SEntry :=
  let sortedL := sortEntries launches
  let frame := initialEntries (uniqueYears sortedL) ++ sortedL
  add_end_of_period_entries currentYear currentDoy
    (frame.filter (fun e => 2017 ≤ e.year))

/-- Running sums (`cumsum`) starting from `acc`. -/
def cumsumFrom (acc : Nat) : List Nat → List Nat
  | [] => []
  | a :: t => (acc + a) :: cumsumFrom (acc + a) t

/-- `Series.cumsum`: partial sums of a list, same length, no leading zero. -/
def cumsum (l : List Nat) : List Nat := cumsumFrom 0 l

/-- The plotted cumulative series of one year: the year's group of the
extended frame, sorted by `DateTime`, running sum of `PayloadMass`. -/
def yearSeries (launches : List SEntry) (currentYear currentDoy y : Nat) : List Nat :=
  cumsum ((sortEntries ((extendedFrame launches currentYear currentDoy).filter
    (fun e => e.year = y))).map SEntry.mass)

/-! ### Decoders for the canonical serialization

These functions invert the serialization above and exist only to prove that
the pre-hash string determines the sorted record list (injectivity of the
serialization).  They are strict: they accept exactly the encoder's
output. -/

/-- Value of one lowercase hex digit. -/
def decHexDigit (c : Char) : Option Nat :=
  if '0' ≤ c && c ≤ '9' then some (c.toNat - 48)
  else if 'a' ≤ c && c ≤ 'f' then some (c.toNat - 87)
  else none

/-- Value of four hex digit characters. -/
def hexVal4 (a b c d : Char) : Option Nat :=
  match decHexDigit a, decHexDigit b, decHexDigit c, decHexDigit d with
  | some x, some y, some z, some w => some (((x * 16 + y) * 16 + z) * 16 + w)
  | _, _, _, _ => none

/-- Decode the body of a JSON string literal up to its closing quote,
returning the decoded code points and the input after the quote.  Surrogate
pairs are recombined; a lone surrogate is rejected (the encoder never
produces one). -/
def decU4 (cs : List Char) : Option (Nat × List Char) :=
  match cs with
  | a :: b :: c :: d :: r => (hexVal4 a b c d).map (fun h => (h, r))
  | _ => none

/-- Decode one element of a JSON string literal: `some (none, r)` when the
closing quote is reached, `some (some code, r)` when one code point is
decoded, `none` on anything the encoder cannot have produced. -/
def decodeOne (cs : List Char) : Option (Option Nat × List Char) :=
  match cs with
  | [] => none
  | c :: r =>
    if c = '"' then some (none, r)
    else if c = '\\' then
      match r with
      | [] => none
      | e :: r2 =>
        if e = '"' then some (some 34, r2)
        else if e = '\\' then some (some 92, r2)
        else if e = 'b' then some (some 8, r2)
        else if e = 't' then some (some 9, r2)
        else if e = 'n' then some (some 10, r2)
        else if e = 'f' then some (some 12, r2)
        else if e = 'r' then some (some 13, r2)
        else if e = 'u' then
          match decU4 r2 with
          | none => none
          | some (h, r3) =>
            if 0xD800 ≤ h && h < 0xDC00 then
              match r3 with
              | x1 :: x2 :: r3b =>
                if x1 = '\\' && x2 = 'u' then
                  match decU4 r3b with
                  | none => none
                  | some (lo, r4) =>
                    if 0xDC00 ≤ lo && lo < 0xE000 then
                      some (some (0x10000 + (h - 0xD800) * 0x400 + (lo - 0xDC00)), r4)
                    else none
                else none
              | _ => none
            else if 0xDC00 ≤ h && h < 0xE000 then none
            else some (some h, r3)
        else none
    else if 0x20 ≤ c.toNat && c.toNat ≤ 0x7e then some (some c.toNat, r)
    else none

/-- Iterate `decodeOne` until the closing quote; `fuel` bounds the number of
decoded code points and the input's length always suffices. -/
def decStrBodyF : Nat → List Char → Option (List Nat × List Char)
  | 0, _ => none
  | fuel + 1, cs =>
    match decodeOne cs with
    | none => none
    | some (none, r) => some ([], r)
    | some (some code, r) => (decStrBodyF fuel r).map (fun p => (code :: p.1, p.2))

/-- Decode the body of a JSON string literal up to its closing quote,
returning the decoded code points and the input after the quote. -/
def decStrBody (cs : List Char) : Option (List Nat × List Char) :=
  decStrBodyF cs.length cs

/-- Expect a literal token at the head of the input. -/
def dropTok : List Char → List Char → Option (List Char)
  | [], cs => some cs
  | t :: ts, c :: cs => if c = t then dropTok ts cs else none
  | _ :: _, [] => none

/-- Decode a decimal natural: the maximal leading digit run. -/
def decNat (cs : List Char) : Option (Nat × List Char) :=
  let ds := cs.takeWhile Char.isDigit
  if ds.isEmpty then none else some (digitsVal ds, cs.dropWhile Char.isDigit)

/-- The decoded form of one record: year, orbit code points, payload code
points, mass, datetime-string code points, vehicle code points. -/
abbrev RecTup : Type := Nat × List Nat × List Nat × Nat × List Nat × List Nat

/-- The decoded form the serialization of a record must produce. -/
def recTup (r : LaunchRec) : RecTup :=
  (r.year, r.orbit.data.map Char.toNat, r.payload.data.map Char.toNat, r.payloadMassKg,
   (dtChars r.dt).map Char.toNat, r.vehicle.data.map Char.toNat)

/-- Decode one serialized record tuple. -/
def decRecord (cs : List Char) : Option (RecTup × List Char) := do
  let r1 ← dropTok ['['] cs
  let (year, r2) ← decNat r1
  let r3 ← dropTok [',', ' ', '"'] r2
  let (orbit, r4) ← decStrBody r3
  let r5 ← dropTok [',', ' ', '"'] r4
  let (payload, r6) ← decStrBody r5
  let r7 ← dropTok [',', ' '] r6
  let (mass, r8) ← decNat r7
  let r9 ← dropTok [',', ' ', '"'] r8
  let (dts, r10) ← decStrBody r9
  let r11 ← dropTok [',', ' ', '"'] r10
  let (veh, r12) ← decStrBody r11
  let r13 ← dropTok [']'] r12
  some ((year, orbit, payload, mass, dts, veh), r13)

/-- Decode a nonempty `", "`-separated record sequence followed by the
closing `]` that ends the input.  `fuel` bounds the recursion; the input's
length always suffices. -/
def decSeq : Nat → List Char → Option (List RecTup)
  | 0, _ => none
  | fuel + 1, cs =>
    match decRecord cs with
    | none => none
    | some (t, r) =>
      if r = [']'] then some [t]
      else
        match r with
        | c1 :: c2 :: r2 =>
          if c1 = ',' && c2 = ' ' then (decSeq fuel r2).map (fun ts => t :: ts) else none
        | _ => none

/-- Decode a whole canonical serialization into its record tuples. -/
def decTop (cs : List Char) : Option (List RecTup) :=
  match cs with
  | [] => none
  | c :: r =>
    if c = '[' then
      if r = [']'] then some []
      else decSeq cs.length r
    else none

/-- The well-formedness the datetime components always satisfy (they come
from `datetime`, whose fields are bounded), under which the fixed-width
`str(datetime)` rendering is injective. -/
def recWF (r : LaunchRec) : Prop :=
  r.dt.y < 10000 ∧ r.dt.mo < 100 ∧ r.dt.d < 100 ∧ r.dt.h < 100 ∧ r.dt.mi < 100

instance (r : LaunchRec) : Decidable (recWF r) :=
  inferInstanceAs (Decidable (_ ∧ _ ∧ _ ∧ _ ∧ _))

/-! ## Theorems -/

/-- A successful lookup returns one of the table's values. -/
theorem lookup_mem_values {k v : String} :
    ∀ {l : List (String × String)}, l.lookup k = some v → v ∈ l.map Prod.snd := by
  intro l
  induction l with
  | nil => intro h; simp [List.lookup] at h
  | cons p t ih =>
    intro h
    rw [List.lookup] at h
    by_cases hk : (k == p.1)
    · rw [hk] at h
      simp at h
      simp [← h]
    · rw [Bool.of_not_eq_true hk] at h
      simp only [List.map_cons, List.mem_cons]
      exact Or.inr (ih h)

/-- C1.  The orbit classifier is total: every input string (after Starlink
qualification) classifies into the fixed 10-category set and never raises
(the model is a total function); any label absent from the lookup table
after footnote stripping and trimming maps to `"Other"`; raw label
`"GTO[338]"` maps to `"GTO/GEO"` and `"Polar retrograde orbit XYZ"` maps to
`"Other"`. -/
theorem clean_orbit_category_total (s : String) :
    clean_orbit_category s ∈ orbitCategories ∧
    (orbit_mapping.lookup (pyStrip ⟨removeBrackets s.data⟩) = none →
      clean_orbit_category s = "Other") ∧
    clean_orbit_category "GTO[338]" = "GTO/GEO" ∧
    clean_orbit_category "Polar retrograde orbit XYZ" = "Other" := by
  refine ⟨?_, ?_, by decide, by decide⟩
  · unfold clean_orbit_category
    cases h : orbit_mapping.lookup (pyStrip ⟨removeBrackets s.data⟩) with
    | none => decide
    | some v =>
      have hv := lookup_mem_values h
      have hsub : ∀ x ∈ orbit_mapping.map Prod.snd, x ∈ orbitCategories := by decide
      simpa using hsub v hv
  · intro h
    unfold clean_orbit_category
    rw [h]
    rfl

/-- Witness for C1 at concrete inputs: the label `"Molniya"` is absent from
the table and classifies as `"Other"`, inside the 10-category set. -/
theorem clean_orbit_category_total_witness :
    orbit_mapping.lookup (pyStrip ⟨removeBrackets "Molniya".data⟩) = none ∧
    clean_orbit_category "Molniya" = "Other" ∧
    clean_orbit_category "Molniya" ∈ orbitCategories :=
  ⟨by decide, (clean_orbit_category_total "Molniya").2.1 (by decide),
    (clean_orbit_category_total "Molniya").1⟩

/-- C10.  The orbit label consisting of the single em dash `"—"` (Starship
test-flight rows) classifies to `"Transatmospheric"`, not to the default
`"Other"`. -/
theorem em_dash_orbit_transatmospheric :
    clean_orbit_category "—" = "Transatmospheric" ∧ clean_orbit_category "—" ≠ "Other" := by
  decide

/-- C4.  Starlink qualification precedes the canonical lookup: a payload
containing `"Starlink"` appends `" (Starlink)"` to the raw orbit before the
table lookup, so raw `"LEO"` classifies as `"LEO (Starlink)"`, while any
base orbit whose Starlink-qualified form is absent from the table — e.g.
raw `"GTO"`, producing `"GTO (Starlink)"` — classifies as `"Other"`. -/
theorem starlink_qualified_before_lookup (payload orbit : String)
    (hp : pyContains payload "Starlink" = true) :
    categorize_starlink payload orbit = orbit ++ " (Starlink)" ∧
    clean_orbit_category (categorize_starlink payload "LEO") = "LEO (Starlink)" ∧
    (orbit_mapping.lookup (pyStrip ⟨removeBrackets (orbit ++ " (Starlink)").data⟩) = none →
      clean_orbit_category (categorize_starlink payload orbit) = "Other") ∧
    clean_orbit_category (categorize_starlink payload "GTO") = "Other" := by
  have hq : ∀ o : String, categorize_starlink payload o = o ++ " (Starlink)" := by
    intro o
    unfold categorize_starlink
    rw [hp]
    simp
  refine ⟨hq orbit, ?_, ?_, ?_⟩
  · rw [hq "LEO"]; decide
  · intro h
    rw [hq orbit]
    exact (clean_orbit_category_total (orbit ++ " (Starlink)")).2.1 h
  · rw [hq "GTO"]; decide

/-- Witness for C4: payload `"Starlink-31"` with raw orbits `"LEO"` and
`"GTO"`. -/
theorem starlink_qualified_before_lookup_witness :
    pyContains "Starlink-31" "Starlink" = true ∧
    categorize_starlink "Starlink-31" "GTO" = "GTO (Starlink)" ∧
    clean_orbit_category (categorize_starlink "Starlink-31" "LEO") = "LEO (Starlink)" ∧
    clean_orbit_category (categorize_starlink "Starlink-31" "GTO") = "Other" := by
  have h := starlink_qualified_before_lookup "Starlink-31" "GTO" (by decide)
  exact ⟨by decide, h.1, h.2.1, h.2.2.2⟩

/-- A character surviving `dropWhile` was in the original list. -/
theorem mem_of_mem_dropWhile {p : Char → Bool} {c : Char} :
    ∀ {l : List Char}, c ∈ l.dropWhile p → c ∈ l := by
  intro l
  induction l with
  | nil => simp [List.dropWhile]
  | cons a t ih =>
    intro h
    rw [List.dropWhile] at h
    by_cases hp : p a
    · rw [hp] at h
      exact List.mem_cons_of_mem a (ih h)
    · rw [Bool.of_not_eq_true hp] at h
      exact h

/-- A character of the stripped string was in the original string. -/
theorem mem_of_mem_pyStripChars {c : Char} {l : List Char} (h : c ∈ pyStripChars l) :
    c ∈ l := by
  unfold pyStripChars at h
  rw [List.mem_reverse] at h
  exact mem_of_mem_dropWhile (List.mem_reverse.mp (mem_of_mem_dropWhile h))

/-- With no digit anywhere, the first-integer search fails. -/
theorem firstIntSearch_eq_none :
    ∀ {l : List Char}, (∀ c ∈ l, c.isDigit = false) → firstIntSearch l = none := by
  intro l
  induction l with
  | nil => intro _; rfl
  | cons c r ih =>
    intro h
    rw [firstIntSearch, h c (List.mem_cons_self c r)]
    simp only [Bool.false_eq_true, if_false]
    exact ih fun x hx => h x (List.mem_cons_of_mem c hx)

/-- With no digit anywhere, the range search fails. -/
theorem rangeSearch_eq_none :
    ∀ {l : List Char}, (∀ c ∈ l, c.isDigit = false) → rangeSearch l = none := by
  intro l
  induction l with
  | nil => intro _; rfl
  | cons c r ih =>
    intro h
    rw [rangeSearch, rangeAt, h c (List.mem_cons_self c r)]
    simp only [Bool.false_eq_true, if_false]
    exact ih fun x hx => h x (List.mem_cons_of_mem c hx)

/-- Dash normalization and stripping introduce no digits. -/
theorem normMass_no_digit {text : String} (h : ∀ c ∈ text.data, c.isDigit = false) :
    ∀ c ∈ normMass text, c.isDigit = false := by
  intro c hc
  unfold normMass at hc
  rcases List.mem_map.mp hc with ⟨c0, hc0, rfl⟩
  have hc0' : c0.isDigit = false := h c0 (mem_of_mem_pyStripChars hc0)
  by_cases hd : c0 = '–' ∨ c0 = '—'
  · rcases hd with rfl | rfl <;> simp
  · push_neg at hd
    rw [if_neg (by simp [hd.1, hd.2])]
    exact hc0'

/-- C2.  The Falcon mass parser: after dash normalization and stripping, a
numeric range `A-B` (hyphen or `to`) yields `round((A+B)/2)` with thousands
separators stripped; otherwise the first integer found; otherwise 0.  In
particular `"5,000–6,000 kg"` yields 5500, `"~16,000 kg"` yields 16000, and
text with no digits yields 0. -/
theorem parse_payload_mass_spec (text : String) :
    (∀ a b, rangeSearch (normMass text) = some (a, b) →
      parse_payload_mass_text text =
        pyRoundHalfNat (intOfDigitsCommas a + intOfDigitsCommas b)) ∧
    (rangeSearch (normMass text) = none →
      ∀ d, firstIntSearch (normMass text) = some d →
        parse_payload_mass_text text = intOfDigitsCommas d) ∧
    ((∀ c ∈ text.data, c.isDigit = false) → parse_payload_mass_text text = 0) ∧
    parse_payload_mass_text "5,000–6,000 kg" = 5500 ∧
    parse_payload_mass_text "~16,000 kg" = 16000 := by
  refine ⟨?_, ?_, ?_, by decide, by decide⟩
  · intro a b h
    by_cases hd : text.data = []
    · rw [show normMass text = [] by simp [normMass, pyStripChars, hd]] at h
      exact absurd h (by simp [rangeSearch])
    · unfold parse_payload_mass_text
      rw [if_neg hd, h]
  · intro hr d hf
    by_cases hd : text.data = []
    · rw [show normMass text = [] by simp [normMass, pyStripChars, hd]] at hf
      exact absurd hf (by simp [firstIntSearch])
    · unfold parse_payload_mass_text
      rw [if_neg hd, hr, hf]
  · intro h
    by_cases hd : text.data = []
    · unfold parse_payload_mass_text
      rw [if_pos hd]
    · unfold parse_payload_mass_text
      rw [if_neg hd, rangeSearch_eq_none (normMass_no_digit h),
        firstIntSearch_eq_none (normMass_no_digit h)]

/-- Witness for C2: a `to`-separated range averages; a tilde-prefixed single
value is taken as-is; digit-free text yields 0. -/
theorem parse_payload_mass_spec_witness :
    parse_payload_mass_text "100 to 201 kg" = 150 ∧
    parse_payload_mass_text "~7 kg" = 7 ∧
    parse_payload_mass_text "no digits here" = 0 := by
  refine ⟨?_, ?_, (parse_payload_mass_spec "no digits here").2.2.1 (by decide)⟩
  · rw [(parse_payload_mass_spec "100 to 201 kg").1 "100".data "201".data (by decide)]
    decide
  · rw [(parse_payload_mass_spec "~7 kg").2.1 (by decide) "7".data (by decide)]
    decide

/-- A date cell with no pattern match parses to a skipped row. -/
theorem parseDateCol_none {s : String} (h : dateGroups s.data = none) :
    parseDateCol s = .ok none := by
  simp only [parseDateCol, h]

/-- A matched date whose month abbreviation is unresolvable is fatal. -/
theorem parseDateCol_badMonth {s : String} {d mw y : List Char}
    (hg : dateGroups s.data = some (d, mw, y))
    (hm : month_to_int ⟨mw.take 3⟩ = none) :
    parseDateCol s = .error .badMonth := by
  simp only [parseDateCol, hg, hm]

/-- With no `HH:MM` in the date cell, a parsed datetime has time 00:00. -/
theorem parseDateCol_time_default {s : String} {dt : DT}
    (h : parseDateCol s = .ok (some dt)) (ht : timeSearch s.data = none) :
    dt.h = 0 ∧ dt.mi = 0 := by
  cases hg : dateGroups s.data with
  | none => rw [parseDateCol_none hg] at h; simp at h
  | some g =>
    obtain ⟨d, mw, y⟩ := g
    cases hm : month_to_int ⟨mw.take 3⟩ with
    | none => rw [parseDateCol_badMonth hg hm] at h; simp at h
    | some mo =>
      simp only [parseDateCol, hg, hm, ht] at h
      split at h
      · simp at h
      · split at h
        · simp at h
        · simp only [Except.ok.injEq, Option.some.injEq] at h
          rw [← h]
          exact ⟨rfl, rfl⟩

/-- Inversion for an accepted Falcon row: the datetime comes from the date
cell and the mass is the parsed mass gated by the outcome text. -/
theorem parseFalconRow_inv {cols : List String} {r : LaunchRec}
    (h : parseFalconRow cols = .ok (some r)) :
    parseDateCol (cols.getD 0 "") = .ok (some r.dt) ∧
    r.payloadMassKg =
      (if pyContains (pyLower (pyStrip (cols.getD 7 ""))) "success" then
        parse_payload_mass_text (pyStrip (cols.getD 4 "")) else 0) := by
  unfold parseFalconRow at h
  split at h
  · cases hdc : parseDateCol (cols.getD 0 "") with
    | error e => rw [hdc] at h; simp at h
    | ok o =>
      cases o with
      | none => rw [hdc] at h; simp at h
      | some dt =>
        rw [hdc] at h
        simp only [Except.ok.injEq, Option.some.injEq] at h
        rw [← h]
        exact ⟨rfl, rfl⟩
  · simp at h

/-- Inversion for an accepted Starship row: the datetime comes from the date
cell and a nonzero mass requires the outcome text to contain `"success"`. -/
theorem parseStarshipRow_inv {cols : List String} {r : LaunchRec}
    (h : parseStarshipRow cols = .ok (some r)) :
    parseDateCol (cols.getD 0 "") = .ok (some r.dt) ∧
    r.payloadMassKg =
      (if pyContains (pyLower (pyStrip (cols.getD 8 ""))) "success" then
        (match starshipMassSearch (pyStrip (cols.getD 5 "")).data with
         | some run => intOfDigitsCommas run
         | none => 0)
      else 0) := by
  unfold parseStarshipRow at h
  split at h
  · cases hdc : parseDateCol (cols.getD 0 "") with
    | error e => rw [hdc] at h; simp at h
    | ok o =>
      cases o with
      | none => rw [hdc] at h; simp at h
      | some dt =>
        rw [hdc] at h
        simp only [Except.ok.injEq, Option.some.injEq] at h
        rw [← h]
        exact ⟨rfl, rfl⟩
  · simp at h

/-- C3.  Outcome gating: for every accepted row (Falcon or Starship), if
the lowercased outcome-cell text does not contain `"success"`, the produced
record's `payloadMassKg` is 0 regardless of the mass cell's content. -/
theorem outcome_gating (colsF colsS : List String) :
    (∀ r : LaunchRec, parseFalconRow colsF = .ok (some r) →
      pyContains (pyLower (pyStrip (colsF.getD 7 ""))) "success" = false →
      r.payloadMassKg = 0) ∧
    (∀ r : LaunchRec, parseStarshipRow colsS = .ok (some r) →
      pyContains (pyLower (pyStrip (colsS.getD 8 ""))) "success" = false →
      r.payloadMassKg = 0) := by
  constructor
  · intro r h hout
    rw [(parseFalconRow_inv h).2, hout]
    simp
  · intro r h hout
    rw [(parseStarshipRow_inv h).2, hout]
    simp

/-- Witness for C3: a Falcon row and a Starship row with outcome
`"Failure"` and well-filled mass cells both produce records with mass 0. -/
theorem outcome_gating_witness :
    pyContains (pyLower (pyStrip "Failure")) "success" = false ∧
    ({ year := 2010, orbit := "LEO", payload := "Dragon", payloadMassKg := 0,
       dt := ⟨2010, 6, 4, 18, 45⟩, vehicle := "Falcon 9" } : LaunchRec).payloadMassKg = 0 ∧
    ({ year := 2023, orbit := "—", payload := "Starship Test", payloadMassKg := 0,
       dt := ⟨2023, 11, 11, 0, 0⟩, vehicle := "Block 1 Starship" } : LaunchRec).payloadMassKg
      = 0 := by
  refine ⟨by decide, ?_, ?_⟩
  · exact (outcome_gating
      ["4 Jun 2010 18:45", "B0003", "x", "Dragon", "6,000 kg", "LEO", "x", "Failure", "x"]
      ["11 Nov 2023", "", "Block 1 S25", "", "—", "~16,000 kg", "—", "", "Failure", "", ""]).1
      _ (by decide) (by decide)
  · exact (outcome_gating
      ["4 Jun 2010 18:45", "B0003", "x", "Dragon", "6,000 kg", "LEO", "x", "Failure", "x"]
      ["11 Nov 2023", "", "Block 1 S25", "", "—", "~16,000 kg", "—", "", "Failure", "", ""]).2
      _ (by decide) (by decide)

/-- C9.  Date-parse error policy: a row whose date cell matches neither
pattern is silently skipped; a matched date with an unresolvable month
abbreviation raises a fatal error; a parsed row with no `HH:MM` in the date
cell gets time 00:00.  Stated for both row parsers. -/
theorem date_parse_policy (cols : List String) :
    (dateGroups (cols.getD 0 "").data = none →
      parseFalconRow cols = .ok none ∧ parseStarshipRow cols = .ok none) ∧
    (∀ d mw y, dateGroups (cols.getD 0 "").data = some (d, mw, y) →
      month_to_int ⟨mw.take 3⟩ = none →
      ((cols.length = 9 ∨ cols.length = 11) →
        parseFalconRow cols = .error .badMonth) ∧
      (cols.length = 11 → parseStarshipRow cols = .error .badMonth)) ∧
    (∀ r : LaunchRec, parseFalconRow cols = .ok (some r) ∨
        parseStarshipRow cols = .ok (some r) →
      timeSearch (cols.getD 0 "").data = none → r.dt.h = 0 ∧ r.dt.mi = 0) := by
  refine ⟨?_, ?_, ?_⟩
  · intro hg
    constructor
    · unfold parseFalconRow
      split
      · rw [parseDateCol_none hg]
      · rfl
    · unfold parseStarshipRow
      split
      · rw [parseDateCol_none hg]
      · rfl
  · intro d mw y hg hm
    constructor
    · intro hlen
      unfold parseFalconRow
      rw [if_pos (by rcases hlen with h | h <;> simp [h]), parseDateCol_badMonth hg hm]
    · intro hlen
      unfold parseStarshipRow
      rw [if_pos (by simp [hlen]), parseDateCol_badMonth hg hm]
  · intro r h ht
    rcases h with h | h
    · exact parseDateCol_time_default (parseFalconRow_inv h).1 ht
    · exact parseDateCol_time_default (parseStarshipRow_inv h).1 ht

/-- Witness for C9: a dateless row is skipped; month word `"Foobar"` is
fatal; a date with no time parses to 00:00. -/
theorem date_parse_policy_witness :
    parseFalconRow ["No date here", "B", "x", "p", "1 kg", "LEO", "x", "Success", "x"]
      = .ok none ∧
    parseFalconRow ["12 Foobar 2020", "B", "x", "p", "1 kg", "LEO", "x", "Success", "x"]
      = .error .badMonth ∧
    (({ year := 2010, orbit := "LEO", payload := "Dragon", payloadMassKg := 6000,
        dt := ⟨2010, 6, 4, 0, 0⟩, vehicle := "Falcon 9" } : LaunchRec).dt.h = 0 ∧
     ({ year := 2010, orbit := "LEO", payload := "Dragon", payloadMassKg := 6000,
        dt := ⟨2010, 6, 4, 0, 0⟩, vehicle := "Falcon 9" } : LaunchRec).dt.mi = 0) := by
  refine ⟨?_, ?_, ?_⟩
  · exact ((date_parse_policy
      ["No date here", "B", "x", "p", "1 kg", "LEO", "x", "Success", "x"]).1 (by decide)).1
  · exact (((date_parse_policy
      ["12 Foobar 2020", "B", "x", "p", "1 kg", "LEO", "x", "Success", "x"]).2.1
      "12".data "Foobar".data "2020".data (by decide) (by decide)).1 (Or.inl (by decide)))
  · exact (date_parse_policy
      ["4 Jun 2010", "B0003", "x", "Dragon", "6,000 kg", "LEO", "x", "Success", "x"]).2.2
      _ (Or.inl (by decide)) (by decide)

/-- C8 counterexample.  The claim asserts that a transport failure with a
cached content entry returns the cached bytes; but `requests.get` raises
before any fallback logic runs and nothing catches the exception, so the
fetch raises even though cached bytes `[72, 105]` exist. -/
theorem fetch_transport_with_cache_raises :
    fetch_with_cache ⟨none, none, some [72, 105]⟩ .transportFailure
      = .error .transport ∧
    (⟨none, none, some [72, 105]⟩ : CacheState).content = some [72, 105] :=
  ⟨rfl, rfl⟩

/-- C8 (amended).  For a received response whose status is neither 200 nor
304: with a cached content entry the cached bytes are returned; with no
cache, a 4xx/5xx status raises (fatal) while any other status returns the
response body; and a transport failure always raises, regardless of the
cache. -/
theorem fetch_with_cache_fallback (st : CacheState) (resp : HttpResponse)
    (h200 : resp.status ≠ 200) (h304 : resp.status ≠ 304) :
    (∀ c, st.content = some c →
      fetch_with_cache st (.response resp) = .ok (c, st)) ∧
    (st.content = none → 400 ≤ resp.status → resp.status < 600 →
      fetch_with_cache st (.response resp) = .error (.httpStatus resp.status)) ∧
    (st.content = none → ¬(400 ≤ resp.status ∧ resp.status < 600) →
      fetch_with_cache st (.response resp) = .ok (resp.body, st)) ∧
    (∀ st2 : CacheState, fetch_with_cache st2 .transportFailure = .error .transport) := by
  refine ⟨?_, ?_, ?_, fun _ => rfl⟩
  · intro c hc
    simp only [fetch_with_cache, h304, hc]
    rw [if_neg (by simp [h304]), if_neg h200]
  · intro hc h4 h6
    simp only [fetch_with_cache, hc]
    rw [if_neg (by simp [h304, hc]), if_neg h200]
    rw [if_pos (by simp [h4, h6])]
  · intro hc hrange
    simp only [fetch_with_cache, hc]
    rw [if_neg (by simp [h304, hc]), if_neg h200]
    rw [if_neg (by simpa using fun h4 h6 => hrange ⟨h4, h6⟩)]

/-- Witness for C8's amended statement: a 500 response with cached bytes
falls back to them; a 500 with no cache raises; a 204 with no cache returns
the body; a transport failure raises. -/
theorem fetch_with_cache_fallback_witness :
    fetch_with_cache ⟨none, none, some [72, 105]⟩ (.response ⟨500, [9], none, none⟩)
      = .ok ([72, 105], ⟨none, none, some [72, 105]⟩) ∧
    fetch_with_cache ⟨none, none, none⟩ (.response ⟨500, [9], none, none⟩)
      = .error (.httpStatus 500) ∧
    fetch_with_cache ⟨none, none, none⟩ (.response ⟨204, [9], none, none⟩)
      = .ok ([9], ⟨none, none, none⟩) ∧
    fetch_with_cache ⟨none, none, some [72, 105]⟩ .transportFailure
      = .error .transport := by
  refine ⟨?_, ?_, ?_, ?_⟩
  · exact (fetch_with_cache_fallback ⟨none, none, some [72, 105]⟩ ⟨500, [9], none, none⟩
      (by decide) (by decide)).1 [72, 105] rfl
  · exact (fetch_with_cache_fallback ⟨none, none, none⟩ ⟨500, [9], none, none⟩
      (by decide) (by decide)).2.1 rfl (by decide) (by decide)
  · exact (fetch_with_cache_fallback ⟨none, none, none⟩ ⟨204, [9], none, none⟩
      (by decide) (by decide)).2.2.1 rfl (by decide)
  · exact (fetch_with_cache_fallback ⟨none, none, none⟩ ⟨204, [9], none, none⟩
      (by decide) (by decide)).2.2.2 ⟨none, none, some [72, 105]⟩

/-- C7.  `has_data_changed` returns `true` iff no prior fingerprint is
persisted or the persisted one differs from the newly computed fingerprint,
and on every outcome the persisted fingerprint after the call is the newly
computed one.  The hypothesis states the self-maintained invariant that a
persisted fingerprint carries no surrounding whitespace (the function only
ever writes bare digest strings), under which the `strip()` applied on
re-reading is the identity. -/
theorem has_data_changed_spec (sha : String → String) (data : List LaunchRec)
    (stored : Option String) (hinv : ∀ s, stored = some s → pyStrip s = s) :
    ((has_data_changed sha data stored).1 = true ↔
      stored = none ∨ stored ≠ some (compute_data_hash sha data)) ∧
    (has_data_changed sha data stored).2 = some (compute_data_hash sha data) := by
  cases stored with
  | none => simp [has_data_changed]
  | some s =>
    have hs : pyStrip s = s := hinv s rfl
    by_cases h : s = compute_data_hash sha data
    · subst h
      simp [has_data_changed, hs]
    · constructor
      · simp only [has_data_changed, hs]
        rw [if_pos h]
        simp [h]
      · simp only [has_data_changed, hs]
        rw [if_pos h]

/-- Witness for C7: both the unchanged case (prior fingerprint equal,
result `false`) and the changed case, with the persisted state checked. -/
theorem has_data_changed_spec_witness :
    (has_data_changed (fun _ => "h1") [] (some "h1")).1 = false ∧
    (has_data_changed (fun _ => "h1") [] (some "h1")).2 = some "h1" ∧
    (has_data_changed (fun _ => "h2") [] (some "h1")).1 = true ∧
    (has_data_changed (fun _ => "h2") [] none).2 = some "h2" := by
  have w1 := has_data_changed_spec (fun _ => "h1") [] (some "h1")
    (fun s hs => by cases hs; decide)
  have w2 := has_data_changed_spec (fun _ => "h2") [] (some "h1")
    (fun s hs => by cases hs; decide)
  have w3 := has_data_changed_spec (fun _ => "h2") [] none (fun s hs => by cases hs)
  refine ⟨?_, ?_, ?_, ?_⟩
  · have := w1.1
    simp only [show compute_data_hash (fun _ => "h1") [] = "h1" from rfl] at this
    rcases hb : (has_data_changed (fun _ => "h1") [] (some "h1")).1 with _ | _
    · rfl
    · exact absurd ((this.mp hb).resolve_left (by simp)) (by simp)
  · simpa using w1.2
  · exact w2.1.mpr (Or.inr (by simp [compute_data_hash]))
  · simpa using w3.2

/-- Inserting an element below every list element puts it at the head. -/
theorem orderedInsert_eq_cons {a : SEntry} :
    ∀ {l : List SEntry}, (∀ x ∈ l, entryLe a x) →
      List.orderedInsert entryLe a l = a :: l := by
  intro l h
  cases l with
  | nil => rfl
  | cons c m => exact List.orderedInsert_of_le entryLe m (h c (List.mem_cons_self c m))

/-- Filtering commutes with ordered insertion into a sorted list. -/
theorem filter_orderedInsert (p : SEntry → Bool) (a : SEntry) :
    ∀ {s : List SEntry}, List.Sorted entryLe s →
      (List.orderedInsert entryLe a s).filter p =
        if p a then List.orderedInsert entryLe a (s.filter p) else s.filter p := by
  intro s
  induction s with
  | nil =>
    intro _
    by_cases hp : p a <;> simp [List.orderedInsert, hp]
  | cons b t ih =>
    intro hs
    rw [List.orderedInsert]
    by_cases hab : entryLe a b
    · rw [if_pos hab]
      by_cases hp : p a
      · rw [if_pos hp, List.filter_cons_of_pos hp, orderedInsert_eq_cons]
        intro x hx
        rcases List.mem_cons.mp (List.mem_of_mem_filter hx) with rfl | hxt
        · exact hab
        · exact Nat.le_trans hab (List.rel_of_sorted_cons hs x hxt)
      · rw [if_neg hp, List.filter_cons_of_neg hp]
    · rw [if_neg hab, List.filter_cons, ih hs.of_cons, List.filter_cons]
      by_cases hp : p a <;> by_cases hpb : p b <;>
        simp [hp, hpb, List.orderedInsert, hab]

/-- Filtering commutes with the stable sort. -/
theorem filter_sortEntries (p : SEntry → Bool) :
    ∀ l : List SEntry, (sortEntries l).filter p = sortEntries (l.filter p) := by
  intro l
  induction l with
  | nil => rfl
  | cons a t ih =>
    unfold sortEntries at ih ⊢
    rw [List.insertionSort, filter_orderedInsert p a (List.sorted_insertionSort entryLe t),
      ih, List.filter_cons]
    by_cases hp : p a
    · rw [if_pos hp, if_pos hp, List.insertionSort]
    · rw [if_neg hp, if_neg hp]

/-- Sorting an already produced sort again changes nothing. -/
theorem sortEntries_idem (l : List SEntry) : sortEntries (sortEntries l) = sortEntries l :=
  List.Sorted.insertionSort_eq (List.sorted_insertionSort entryLe l)

/-- A duplicate-free list filtered to one of its members is that singleton. -/
theorem filter_beq_singleton :
    ∀ {l : List Nat}, l.Nodup → ∀ {y : Nat}, y ∈ l →
      l.filter (fun x => x = y) = [y] := by
  intro l
  induction l with
  | nil => intro _ y hy; cases hy
  | cons a t ih =>
    intro hnd y hy
    rcases List.mem_cons.mp hy with rfl | hyt
    · rw [List.filter_cons_of_pos (by simp)]
      have ht : t.filter (fun x => decide (x = y)) = [] :=
        List.filter_eq_nil_iff.mpr (fun x hx => by
          simp only [decide_eq_true_eq]
          rintro rfl
          exact (List.nodup_cons.mp hnd).1 hx)
      rw [ht]
    · rw [List.filter_cons_of_neg]
      · exact ih (List.nodup_cons.mp hnd).2 hyt
      · simp only [decide_eq_true_eq]
        rintro rfl
        exact (List.nodup_cons.mp hnd).1 hyt

/-- The partial sums from any start are non-decreasing. -/
theorem chain_cumsumFrom : ∀ (l : List Nat) (acc : Nat),
    List.Chain' (· ≤ ·) (cumsumFrom acc l) := by
  intro l
  induction l with
  | nil => intro acc; simp [cumsumFrom]
  | cons a t ih =>
    intro acc
    rw [cumsumFrom]
    rw [List.chain'_cons']
    refine ⟨?_, ih (acc + a)⟩
    intro b hb
    cases t with
    | nil => simp [cumsumFrom] at hb
    | cons c u =>
      simp only [cumsumFrom, List.head?_cons, Option.mem_def, Option.some.injEq] at hb
      omega

/-- Every month has between 28 and 31 days. -/
theorem daysInMonth_bounds (y mo : Nat) : 28 ≤ daysInMonth y mo ∧ daysInMonth y mo ≤ 31 := by
  unfold daysInMonth
  split_ifs <;> omega

/-- Stepping a valid date forward one day keeps it valid and does not
decrease the chronological key. -/
theorem nextDayDT_key {d : DT} (h : 1 ≤ d.mo ∧ d.mo ≤ 12 ∧ 1 ≤ d.d ∧ d.d ≤ 31) :
    (1 ≤ (nextDayDT d).mo ∧ (nextDayDT d).mo ≤ 12 ∧
      1 ≤ (nextDayDT d).d ∧ (nextDayDT d).d ≤ 31) ∧
    dtKeyN d ≤ dtKeyN (nextDayDT d) := by
  obtain ⟨y, mo, dd, hh, mi⟩ := d
  obtain ⟨h1, h2, h3, h4⟩ := h
  obtain ⟨hdim1, hdim2⟩ := daysInMonth_bounds y mo
  unfold nextDayDT dtKeyN
  dsimp only at h1 h2 h3 h4 hdim1 hdim2 ⊢
  split_ifs with c1 c2 <;> dsimp only <;> refine ⟨⟨?_, ?_, ?_, ?_⟩, ?_⟩ <;> omega

/-- Adding days to January 1 never moves before January 1. -/
theorem jan1_le_addDays (y n : Nat) :
    dtKeyN (jan1DT y) ≤ dtKeyN (addDaysDT (jan1DT y) n) := by
  have main : ∀ m : Nat,
      (1 ≤ (addDaysDT (jan1DT y) m).mo ∧ (addDaysDT (jan1DT y) m).mo ≤ 12 ∧
        1 ≤ (addDaysDT (jan1DT y) m).d ∧ (addDaysDT (jan1DT y) m).d ≤ 31) ∧
      dtKeyN (jan1DT y) ≤ dtKeyN (addDaysDT (jan1DT y) m) := by
    intro m
    induction m with
    | zero => exact ⟨by simp [jan1DT, addDaysDT], Nat.le_refl _⟩
    | succ k ih =>
      have step := nextDayDT_key ih.1
      exact ⟨step.1, Nat.le_trans ih.2 step.2⟩
  exact (main n).2

/-- January 1 of a year is chronologically at or before any valid datetime
of that year. -/
theorem jan1_le_of_same_year {y : Nat} {d : DT} (hy : d.y = y) (hmo : 1 ≤ d.mo)
    (hd : 1 ≤ d.d) : dtKeyN (jan1DT y) ≤ dtKeyN d := by
  obtain ⟨ym, mo, dd, hh, mi⟩ := d
  dsimp only at hy hmo hd
  subst hy
  unfold dtKeyN jan1DT
  dsimp only
  omega

/-- Membership in the duplicate-free year list. -/
theorem mem_uniqueYears {l : List SEntry} {y : Nat} :
    y ∈ uniqueYears l ↔ y ∈ l.map SEntry.year := by
  simp [uniqueYears, List.mem_dedup]

/-- The end-of-period rows carry exactly the years they were built from. -/
theorem endOfPeriodEntries_years (cy cd : Nat) (ys : List Nat) :
    (endOfPeriodEntries cy cd ys).map SEntry.year = ys := by
  simp [endOfPeriodEntries, List.map_map, Function.comp_def]

/-- C5.  Cumulative-series invariant: for every year present in the extended
dataset, the per-year cumulative sequence (records sorted by timestamp,
running sum reset per year, synthetic anchor points included) is monotone
non-decreasing and its first value is 0.  The hypothesis is the
well-formedness every parsed launch satisfies: the datetime's year is the
record's year, and month and day are at least 1. -/
theorem cumulative_series_spec (launches : List SEntry) (currentYear currentDoy y : Nat)
    (hwf : ∀ e ∈ launches, e.dt.y = e.year ∧ 1 ≤ e.dt.mo ∧ 1 ≤ e.dt.d)
    (hy : y ∈ (extendedFrame launches currentYear currentDoy).map SEntry.year) :
    (yearSeries launches currentYear currentDoy y).head? = some 0 ∧
    List.Chain' (· ≤ ·) (yearSeries launches currentYear currentDoy y) := by
  set sl := sortEntries launches with hsl
  set ys := uniqueYears sl with hys
  set fr := (initialEntries ys ++ sl).filter (fun e => 2017 ≤ e.year) with hfr
  set ee := endOfPeriodEntries currentYear currentDoy (uniqueYears fr) with hee
  have hEF : extendedFrame launches currentYear currentDoy = sortEntries (fr ++ ee) := rfl
  -- the year is inhabited by some row of the unsorted extended material
  have hyfr : y ∈ fr.map SEntry.year := by
    rw [hEF] at hy
    have hmem : y ∈ (fr ++ ee).map SEntry.year :=
      (List.Perm.mem_iff ((List.perm_insertionSort entryLe (fr ++ ee)).map SEntry.year)).mp hy
    rw [List.map_append, List.mem_append] at hmem
    rcases hmem with h | h
    · exact h
    · rw [hee, endOfPeriodEntries_years] at h
      exact mem_uniqueYears.mp h
  rcases List.mem_map.mp hyfr with ⟨e0, he0, he0y⟩
  have he0' := List.mem_filter.mp he0
  have hy2017 : 2017 ≤ y := by
    have := of_decide_eq_true he0'.2
    omega
  have hyys : y ∈ ys := by
    rcases List.mem_append.mp he0'.1 with hin | hin
    · rcases List.mem_map.mp hin with ⟨y', hy', hfy⟩
      rw [mem_uniqueYears]
      rw [← he0y, ← hfy]
      have : y' ∈ ys := (List.mem_filter.mp hy').1
      rw [mem_uniqueYears] at this
      simpa using this
    · have : e0.year ∈ sl.map SEntry.year := List.mem_map_of_mem SEntry.year hin
      rw [he0y] at this
      exact mem_uniqueYears.mpr this
  have hyfr2 : y ∈ uniqueYears fr := mem_uniqueYears.mpr hyfr
  -- the two synthetic anchors of year y
  have hanchor_init :
      (initialEntries ys).filter (fun e => e.year = y) = [⟨y, 0, jan1DT y⟩] := by
    unfold initialEntries
    rw [List.filter_map]
    have hsingle : (ys.filter (fun x => 2017 ≤ x)).filter (fun x => x = y) = [y] := by
      refine filter_beq_singleton ?_ ?_
      · exact (List.nodup_dedup _).filter _
      · exact List.mem_filter.mpr ⟨hyys, by simp [hy2017]⟩
    have hpred : ((fun e : SEntry => decide (e.year = y)) ∘
        fun y' => (⟨y', 0, jan1DT y'⟩ : SEntry)) = fun x => decide (x = y) := rfl
    rw [hpred, hsingle]
    rfl
  have hanchor_end : ee.filter (fun e => e.year = y) =
      [⟨y, 0, if y = currentYear then addDaysDT (jan1DT y) (currentDoy - 1)
              else dec31DT y⟩] := by
    rw [hee]
    unfold endOfPeriodEntries
    rw [List.filter_map]
    have hsingle : (uniqueYears fr).filter (fun x => x = y) = [y] :=
      filter_beq_singleton (List.nodup_dedup _) hyfr2
    have hpred : ((fun e : SEntry => decide (e.year = y)) ∘
        fun y' => (⟨y', 0, if y' = currentYear then addDaysDT (jan1DT y') (currentDoy - 1)
          else dec31DT y'⟩ : SEntry)) = fun x => decide (x = y) := rfl
    rw [hpred, hsingle]
    rfl
  -- the group of year y before its final sort
  have hgroup : (fr ++ ee).filter (fun e => e.year = y) =
      (⟨y, 0, jan1DT y⟩ : SEntry) ::
        (sl.filter (fun e => e.year = y) ++
          [⟨y, 0, if y = currentYear then addDaysDT (jan1DT y) (currentDoy - 1)
                  else dec31DT y⟩]) := by
    rw [List.filter_append, hanchor_end]
    have hfr_filter : fr.filter (fun e => e.year = y) =
        (⟨y, 0, jan1DT y⟩ : SEntry) :: sl.filter (fun e => e.year = y) := by
      rw [hfr, List.filter_filter]
      have hcongr : ∀ x ∈ initialEntries ys ++ sl,
          (decide (x.year = y) && decide (2017 ≤ x.year)) = decide (x.year = y) := by
        intro x _
        by_cases hx : x.year = y
        · simp [hx, hy2017]
        · simp [hx]
      rw [List.filter_congr hcongr, List.filter_append, hanchor_init,
        List.singleton_append]
    rw [hfr_filter, List.cons_append]
  -- the January 1 anchor is chronologically first in its group
  have hkey : ∀ b ∈ sl.filter (fun e => e.year = y) ++
      [(⟨y, 0, if y = currentYear then addDaysDT (jan1DT y) (currentDoy - 1)
               else dec31DT y⟩ : SEntry)],
      entryLe ⟨y, 0, jan1DT y⟩ b := by
    intro b hb
    rcases List.mem_append.mp hb with hb | hb
    · have hb' := List.mem_filter.mp hb
      have hbl : b ∈ launches := by
        have := hb'.1
        rw [hsl] at this
        exact (List.mem_insertionSort entryLe).mp this
      obtain ⟨hdy, hmo, hd⟩ := hwf b hbl
      have hby : b.year = y := of_decide_eq_true hb'.2
      exact jan1_le_of_same_year (by rw [hdy, hby]) hmo hd
    · rw [List.mem_singleton] at hb
      subst hb
      show dtKeyN (jan1DT y) ≤ dtKeyN _
      by_cases hc : y = currentYear
      · rw [if_pos hc]
        exact jan1_le_addDays y _
      · rw [if_neg hc]
        unfold jan1DT dec31DT dtKeyN
        dsimp only
        omega
  have hseries : yearSeries launches currentYear currentDoy y =
      cumsum (0 :: (sortEntries (sl.filter (fun e => e.year = y) ++
        [⟨y, 0, if y = currentYear then addDaysDT (jan1DT y) (currentDoy - 1)
                else dec31DT y⟩])).map SEntry.mass) := by
    unfold yearSeries
    rw [hEF, filter_sortEntries, sortEntries_idem, hgroup]
    show cumsum ((sortEntries (_ :: _)).map SEntry.mass) = _
    unfold sortEntries
    rw [List.insertionSort_cons entryLe hkey]
    rfl
  constructor
  · rw [hseries]
    rfl
  · rw [hseries]
    exact chain_cumsumFrom _ 0

set_option maxRecDepth 8000 in
/-- Witness for C5: one launch list with launches in 2018 and 2023, checked
at year 2023 with current day-of-year 200. -/
theorem cumulative_series_spec_witness :
    (yearSeries [⟨2023, 100, ⟨2023, 6, 4, 18, 45⟩⟩, ⟨2023, 50, ⟨2023, 2, 1, 0, 0⟩⟩,
        ⟨2018, 7, ⟨2018, 3, 1, 0, 0⟩⟩] 2023 200 2023).head? = some 0 ∧
    List.Chain' (· ≤ ·)
      (yearSeries [⟨2023, 100, ⟨2023, 6, 4, 18, 45⟩⟩, ⟨2023, 50, ⟨2023, 2, 1, 0, 0⟩⟩,
        ⟨2018, 7, ⟨2018, 3, 1, 0, 0⟩⟩] 2023 200 2023) :=
  cumulative_series_spec
    [⟨2023, 100, ⟨2023, 6, 4, 18, 45⟩⟩, ⟨2023, 50, ⟨2023, 2, 1, 0, 0⟩⟩,
     ⟨2018, 7, ⟨2018, 3, 1, 0, 0⟩⟩] 2023 200 2023
    (by decide) (by decide)

/-- Digit characters of digit values. -/
theorem digitCh_isDigit {k : Nat} (h : k < 10) : (digitCh k).isDigit = true := by
  interval_cases k <;> decide

/-- The value of a digit character. -/
theorem digitCh_toNat {k : Nat} (h : k < 10) : (digitCh k).toNat - 48 = k := by
  interval_cases k <;> decide

/-- Decimal rendering of a one-digit number. -/
theorem natChars_lt10 {n : Nat} (h : n < 10) : natChars n = [digitCh n] := by
  rw [natChars, dif_pos h]

/-- Decimal rendering of a larger number peels off its last digit. -/
theorem natChars_ge10 {n : Nat} (h : ¬n < 10) :
    natChars n = natChars (n / 10) ++ [digitCh (n % 10)] := by
  rw [natChars, dif_neg h]

/-- Decimal renderings are never empty. -/
theorem natChars_ne_nil (n : Nat) : natChars n ≠ [] := by
  by_cases h : n < 10
  · rw [natChars_lt10 h]
    simp
  · rw [natChars_ge10 h]
    simp

/-- Decimal renderings consist of digits. -/
theorem natChars_digits : ∀ (n : Nat), ∀ c ∈ natChars n, c.isDigit = true := by
  intro n
  induction n using Nat.strong_induction_on with
  | _ n ih =>
    intro c hc
    by_cases h : n < 10
    · rw [natChars_lt10 h, List.mem_singleton] at hc
      subst hc
      exact digitCh_isDigit h
    · rw [natChars_ge10 h, List.mem_append] at hc
      rcases hc with hc | hc
      · exact ih (n / 10) (Nat.div_lt_self (by omega) (by omega)) c hc
      · rw [List.mem_singleton] at hc
        subst hc
        exact digitCh_isDigit (Nat.mod_lt n (by omega))

/-- Appending one digit multiplies the accumulated value by ten. -/
theorem digitsVal_append_digit (xs : List Char) (c : Char) :
    digitsVal (xs ++ [c]) = digitsVal xs * 10 + (c.toNat - 48) := by
  unfold digitsVal
  rw [List.foldl_append]
  rfl

/-- The decimal rendering evaluates back to the number. -/
theorem digitsVal_natChars : ∀ n : Nat, digitsVal (natChars n) = n := by
  intro n
  induction n using Nat.strong_induction_on with
  | _ n ih =>
    by_cases h : n < 10
    · rw [natChars_lt10 h]
      show 0 * 10 + ((digitCh n).toNat - 48) = n
      rw [digitCh_toNat h]
      omega
    · rw [natChars_ge10 h, digitsVal_append_digit,
        ih (n / 10) (Nat.div_lt_self (by omega) (by omega)),
        digitCh_toNat (Nat.mod_lt n (by omega))]
      omega

/-- A leading zero does not change the numeric value. -/
theorem digitsVal_zero_cons (xs : List Char) : digitsVal ('0' :: xs) = digitsVal xs := rfl

/-- `takeWhile` passes over a prefix that satisfies the predicate. -/
theorem takeWhile_append_all {p : Char → Bool} :
    ∀ {xs : List Char}, (∀ x ∈ xs, p x = true) →
      ∀ r, (xs ++ r).takeWhile p = xs ++ r.takeWhile p := by
  intro xs
  induction xs with
  | nil => intro _ r; rfl
  | cons a t ih =>
    intro h r
    rw [List.cons_append, List.takeWhile_cons_of_pos (h a (List.mem_cons_self a t)),
      ih (fun x hx => h x (List.mem_cons_of_mem a hx)) r]
    rfl

/-- `dropWhile` drops a prefix that satisfies the predicate. -/
theorem dropWhile_append_all {p : Char → Bool} :
    ∀ {xs : List Char}, (∀ x ∈ xs, p x = true) →
      ∀ r, (xs ++ r).dropWhile p = r.dropWhile p := by
  intro xs
  induction xs with
  | nil => intro _ r; rfl
  | cons a t ih =>
    intro h r
    rw [List.cons_append, List.dropWhile_cons_of_pos (h a (List.mem_cons_self a t)),
      ih (fun x hx => h x (List.mem_cons_of_mem a hx)) r]

/-- Decoding a rendered number followed by a non-digit recovers the number. -/
theorem decNat_natChars {n : Nat} {r : List Char}
    (hr : ∀ c, r.head? = some c → c.isDigit = false) :
    decNat (natChars n ++ r) = some (n, r) := by
  have htw : r.takeWhile Char.isDigit = [] := by
    cases r with
    | nil => rfl
    | cons c t => rw [List.takeWhile_cons_of_neg (by simp [hr c rfl])]
  have hdw : r.dropWhile Char.isDigit = r := by
    cases r with
    | nil => rfl
    | cons c t => rw [List.dropWhile_cons_of_neg (by simp [hr c rfl])]
  unfold decNat
  rw [takeWhile_append_all (natChars_digits n) r, htw,
    dropWhile_append_all (natChars_digits n) r, hdw, List.append_nil]
  rw [if_neg (by simp [natChars_ne_nil n])]
  rw [digitsVal_natChars]

/-- Expected-token helpers: each decoder token consumes exactly itself. -/
theorem dropTok_sq (X : List Char) : dropTok ['['] ('[' :: X) = some X := rfl

theorem dropTok_cq (X : List Char) :
    dropTok [',', ' ', '"'] (',' :: ' ' :: '"' :: X) = some X := rfl

theorem dropTok_cs (X : List Char) : dropTok [',', ' '] (',' :: ' ' :: X) = some X := rfl

theorem dropTok_rb (X : List Char) : dropTok [']'] (']' :: X) = some X := rfl

/-- Hex digits decode back to their value. -/
theorem decHexDigit_digitCh {k : Nat} (h : k < 16) : decHexDigit (digitCh k) = some k := by
  interval_cases k <;> decide

/-- Four rendered hex digits decode back to the value below `0x10000`. -/
theorem hexVal4_hex4 {n : Nat} (h : n < 0x10000) :
    hexVal4 (digitCh (n / 4096 % 16)) (digitCh (n / 256 % 16)) (digitCh (n / 16 % 16))
      (digitCh (n % 16)) = some n := by
  unfold hexVal4
  rw [decHexDigit_digitCh (Nat.mod_lt _ (by omega)),
    decHexDigit_digitCh (Nat.mod_lt _ (by omega)),
    decHexDigit_digitCh (Nat.mod_lt _ (by omega)),
    decHexDigit_digitCh (Nat.mod_lt _ (by omega))]
  simp only [Option.some.injEq]
  omega

/-- Four rendered hex digits decode as a unit. -/
theorem decU4_hex4 {n : Nat} (h : n < 0x10000) (X : List Char) :
    decU4 (hex4 n ++ X) = some (n, X) := by
  unfold hex4
  rw [List.cons_append, List.cons_append, List.cons_append, List.cons_append,
    List.nil_append]
  unfold decU4
  dsimp only
  rw [hexVal4_hex4 h]
  rfl

/-- Decoding one encoded character produces its code point and leaves the
rest of the stream. -/
theorem decodeOne_enc (c : Char) (X : List Char) :
    decodeOne (encodeChar c ++ X) = some (some c.toNat, X) := by
  have hv : c.toNat < 0xd800 ∨ (0xdfff < c.toNat ∧ c.toNat < 0x110000) := c.valid
  unfold encodeChar
  split_ifs with h1 h2 h3 h4 h5 h6 h7 h8 h9
  · subst h1
    rfl
  · subst h2
    rfl
  · rw [List.singleton_append]
    unfold decodeOne
    dsimp only
    rw [if_neg h1, if_neg h2, if_pos h3]
  · rw [h4]
    rfl
  · rw [h5]
    rfl
  · rw [h6]
    rfl
  · rw [h7]
    rfl
  · rw [h8]
    rfl
  · -- basic-plane escape `\uXXXX`: the value is valid, hence not a surrogate
    have hns1 : ¬((0xD800 ≤ c.toNat && c.toNat < 0xDC00) = true) := by
      simp only [Bool.and_eq_true, decide_eq_true_eq, not_and]
      omega
    have hns2 : ¬((0xDC00 ≤ c.toNat && c.toNat < 0xE000) = true) := by
      simp only [Bool.and_eq_true, decide_eq_true_eq, not_and]
      omega
    rw [show ('\\' :: 'u' :: hex4 c.toNat) ++ X = '\\' :: 'u' :: (hex4 c.toNat ++ X)
      from rfl]
    unfold decodeOne
    dsimp only
    rw [if_neg (show ¬('\\' : Char) = '"' by decide), if_pos (rfl : ('\\' : Char) = '\\')]
    rw [if_neg (show ¬('u' : Char) = '"' by decide),
      if_neg (show ¬('u' : Char) = '\\' by decide),
      if_neg (show ¬('u' : Char) = 'b' by decide),
      if_neg (show ¬('u' : Char) = 't' by decide),
      if_neg (show ¬('u' : Char) = 'n' by decide),
      if_neg (show ¬('u' : Char) = 'f' by decide),
      if_neg (show ¬('u' : Char) = 'r' by decide),
      if_pos (rfl : ('u' : Char) = 'u')]
    rw [decU4_hex4 h9]
    dsimp only
    rw [if_neg hns1, if_neg hns2]
  · -- astral plane: surrogate pair
    have hlt : c.toNat < 0x110000 := by rcases hv with h | h <;> omega
    have hge : 0x10000 ≤ c.toNat := by omega
    simp only [List.cons_append, List.append_assoc]
    unfold decodeOne
    dsimp only
    rw [if_neg (show ¬('\\' : Char) = '"' by decide), if_pos (rfl : ('\\' : Char) = '\\')]
    rw [if_neg (show ¬('u' : Char) = '"' by decide),
      if_neg (show ¬('u' : Char) = '\\' by decide),
      if_neg (show ¬('u' : Char) = 'b' by decide),
      if_neg (show ¬('u' : Char) = 't' by decide),
      if_neg (show ¬('u' : Char) = 'n' by decide),
      if_neg (show ¬('u' : Char) = 'f' by decide),
      if_neg (show ¬('u' : Char) = 'r' by decide),
      if_pos (rfl : ('u' : Char) = 'u')]
    rw [decU4_hex4 (show 0xD800 + (c.toNat - 0x10000) / 0x400 < 0x10000 by omega)]
    dsimp only
    rw [if_pos (show ((0xD800 ≤ 0xD800 + (c.toNat - 0x10000) / 0x400 &&
      0xD800 + (c.toNat - 0x10000) / 0x400 < 0xDC00) = true) by
        simp only [Bool.and_eq_true, decide_eq_true_eq]
        omega)]
    rw [if_pos (show (('\\' : Char) = '\\' && ('u' : Char) = 'u') = true by decide)]
    rw [decU4_hex4 (show 0xDC00 + (c.toNat - 0x10000) % 0x400 < 0x10000 by omega)]
    dsimp only
    rw [if_pos (show ((0xDC00 ≤ 0xDC00 + (c.toNat - 0x10000) % 0x400 &&
      0xDC00 + (c.toNat - 0x10000) % 0x400 < 0xE000) = true) by
        simp only [Bool.and_eq_true, decide_eq_true_eq]
        omega)]
    rw [show 0x10000 + ((0xD800 + (c.toNat - 0x10000) / 0x400) - 0xD800) * 0x400 +
      ((0xDC00 + (c.toNat - 0x10000) % 0x400) - 0xDC00) = c.toNat by omega]

/-- Each character encodes to at least one character. -/
theorem encodeChar_length_pos (c : Char) : 1 ≤ (encodeChar c).length := by
  unfold encodeChar
  split_ifs <;> simp [hex4]

/-- The escaped form is at least as long as the source. -/
theorem encodeStr_length_ge : ∀ cs : List Char, cs.length ≤ (encodeStr cs).length := by
  intro cs
  induction cs with
  | nil => simp [encodeStr]
  | cons c t ih =>
    rw [show encodeStr (c :: t) = encodeChar c ++ encodeStr t from rfl]
    rw [List.length_append, List.length_cons]
    have := encodeChar_length_pos c
    omega

/-- Iterated decoding of an escaped string with enough fuel recovers the
code points and the input after the closing quote. -/
theorem decStrBodyF_enc : ∀ (cs : List Char) (r : List Char) (fuel : Nat),
    cs.length < fuel →
    decStrBodyF fuel (encodeStr cs ++ '"' :: r) = some (cs.map Char.toNat, r) := by
  intro cs
  induction cs with
  | nil =>
    intro r fuel hf
    cases fuel with
    | zero => omega
    | succ f =>
      rw [show encodeStr [] ++ '"' :: r = '"' :: r from rfl]
      rw [decStrBodyF]
      rw [show decodeOne ('"' :: r) = some (none, r) from rfl]
      rfl
  | cons c t ih =>
    intro r fuel hf
    cases fuel with
    | zero => omega
    | succ f =>
      rw [show encodeStr (c :: t) ++ '"' :: r =
        encodeChar c ++ (encodeStr t ++ '"' :: r) by
          rw [show encodeStr (c :: t) = encodeChar c ++ encodeStr t from rfl,
            List.append_assoc]]
      rw [decStrBodyF, decodeOne_enc]
      dsimp only
      rw [ih r f (by simp at hf; omega)]
      rfl

/-- The escaped string plus closing quote decodes to the code points. -/
theorem decStrBody_enc (cs : List Char) (r : List Char) :
    decStrBody (encodeStr cs ++ '"' :: r) = some (cs.map Char.toNat, r) := by
  unfold decStrBody
  refine decStrBodyF_enc cs r _ ?_
  rw [List.length_append, List.length_cons]
  have := encodeStr_length_ge cs
  omega

/-- A rendered number followed by the item separator decodes exactly. -/
theorem decNat_natChars_comma (n : Nat) (X : List Char) :
    decNat (natChars n ++ ',' :: X) = some (n, ',' :: X) :=
  decNat_natChars (fun c hc => by
    rw [List.head?_cons, Option.some.injEq] at hc
    rw [← hc]
    rfl)

/-- One serialized record decodes to its tuple, whatever follows. -/
theorem decRecord_enc (r : LaunchRec) (rest : List Char) :
    decRecord (encRec r ++ rest) = some (recTup r, rest) := by
  have hnorm : encRec r ++ rest =
      '[' :: (natChars r.year ++ ',' :: ' ' :: '"' ::
        (encodeStr r.orbit.data ++ '"' :: ',' :: ' ' :: '"' ::
          (encodeStr r.payload.data ++ '"' :: ',' :: ' ' ::
            (natChars r.payloadMassKg ++ ',' :: ' ' :: '"' ::
              (encodeStr (dtChars r.dt) ++ '"' :: ',' :: ' ' :: '"' ::
                (encodeStr r.vehicle.data ++ '"' :: ']' :: rest)))))) := by
    simp [encRec, jsonStr, List.append_assoc]
  rw [hnorm]
  unfold decRecord
  rw [dropTok_sq]
  dsimp only [Bind.bind, Option.bind]
  rw [decNat_natChars_comma]
  dsimp only
  rw [dropTok_cq]
  dsimp only
  rw [decStrBody_enc]
  dsimp only
  rw [dropTok_cq]
  dsimp only
  rw [decStrBody_enc]
  dsimp only
  rw [dropTok_cs]
  dsimp only
  rw [decNat_natChars_comma]
  dsimp only
  rw [dropTok_cq]
  dsimp only
  rw [decStrBody_enc]
  dsimp only
  rw [dropTok_cq]
  dsimp only
  rw [decStrBody_enc]
  dsimp only
  rw [dropTok_rb]
  rfl

/-- Joined records are at least as many characters as records. -/
theorem joinRecs_length_ge : ∀ recs : List LaunchRec, recs.length ≤ (joinRecs recs).length := by
  intro recs
  induction recs with
  | nil => simp [joinRecs]
  | cons r rs ih =>
    cases rs with
    | nil => simp [joinRecs, encRec]
    | cons r2 rs2 =>
      rw [show joinRecs (r :: r2 :: rs2) = encRec r ++ ',' :: ' ' :: joinRecs (r2 :: rs2)
        from rfl]
      rw [List.length_append, List.length_cons]
      simp only [List.length_cons] at ih ⊢
      omega

/-- A joined nonempty record list starts with the record's opening bracket. -/
theorem joinRecs_head (r : LaunchRec) (rs : List LaunchRec) :
    ∃ t, joinRecs (r :: rs) = '[' :: t := by
  cases rs with
  | nil => exact ⟨_, rfl⟩
  | cons r2 rs2 => exact ⟨_, rfl⟩

/-- A serialized nonempty record sequence decodes, given enough fuel. -/
theorem decSeq_joinRecs : ∀ (recs : List LaunchRec), recs ≠ [] →
    ∀ fuel : Nat, recs.length ≤ fuel →
    decSeq fuel (joinRecs recs ++ [']']) = some (recs.map recTup) := by
  intro recs
  induction recs with
  | nil => intro h; exact absurd rfl h
  | cons r rs ih =>
    intro _ fuel hf
    cases fuel with
    | zero => simp at hf
    | succ f =>
      cases rs with
      | nil =>
        rw [show joinRecs [r] = encRec r from rfl]
        rw [decSeq, decRecord_enc]
        rfl
      | cons r2 rs2 =>
        rw [show joinRecs (r :: r2 :: rs2) = encRec r ++ ',' :: ' ' :: joinRecs (r2 :: rs2)
          from rfl]
        rw [List.append_assoc]
        rw [decSeq, decRecord_enc]
        dsimp only
        simp only [List.cons_append]
        rw [if_neg (show ¬(',' :: ' ' :: (joinRecs (r2 :: rs2) ++ [']']) = [']']) from by
          intro h
          injection h with h1 h2
          exact List.cons_ne_nil _ _ h2)]
        rw [if_pos (show (decide True && decide True) = true from by decide)]
        rw [ih (by simp) f (by simp only [List.length_cons] at hf ⊢; omega)]
        rfl

/-- The whole canonical serialization decodes to the sorted record tuples. -/
theorem decTop_serialize (l : List LaunchRec) :
    decTop (serializeChars l) = some ((sortRecs l).map recTup) := by
  cases hs : sortRecs l with
  | nil =>
    unfold serializeChars
    rw [hs]
    rfl
  | cons r rs =>
    obtain ⟨t, ht⟩ := joinRecs_head r rs
    unfold serializeChars
    rw [hs, ht]
    simp only [List.cons_append]
    unfold decTop
    dsimp only
    rw [if_pos (rfl : ('[' : Char) = '[')]
    rw [if_neg (show ¬('[' :: (t ++ [']']) = [']']) from by
      intro h
      injection h with h1 h2
      rw [List.append_eq_nil] at h2
      exact absurd h2.2 (by simp))]
    rw [show '[' :: (t ++ [']']) = ('[' :: t) ++ [']'] from rfl, ← ht]
    rw [decSeq_joinRecs (r :: rs) (by simp) _ ?_]
    have h1 := joinRecs_length_ge (r :: rs)
    simp only [List.length_cons, List.length_append] at h1 ⊢
    omega

/-- Code points determine characters. -/
theorem char_toNat_inj {c d : Char} (h : c.toNat = d.toNat) : c = d :=
  Char.eq_of_val_eq (UInt32.ext h)

/-- The sort key determines the record. -/
theorem recKey_inj {a b : LaunchRec} (h : recKey a = recKey b) : a = b := by
  obtain ⟨ay, ao, ap, am, ⟨ady, admo, add, adh, admi⟩, av⟩ := a
  obtain ⟨cy, co, cp, cm, ⟨cdy, cdmo, cdd, cdh, cdmi⟩, cv⟩ := b
  simp only [recKey, toLex_inj, Prod.mk.injEq] at h
  obtain ⟨h1, h2, h3, h4, ⟨h5, h6, h7, h8, h9⟩, h10⟩ := h
  subst h1
  subst h2
  subst h3
  subst h4
  subst h5
  subst h6
  subst h7
  subst h8
  subst h9
  subst h10
  rfl

/-- Permuted collections sort to the same list: `sorted(data)` is a
canonical representative of the multiset. -/
theorem sortRecs_eq_of_perm {l₁ l₂ : List LaunchRec} (hp : l₁.Perm l₂) :
    sortRecs l₁ = sortRecs l₂ :=
  have : IsAntisymm LaunchRec recLe :=
    ⟨fun _ _ hab hba => recKey_inj (le_antisymm hab hba)⟩
  List.eq_of_perm_of_sorted
    (((List.perm_insertionSort recLe l₁).trans hp).trans
      (List.perm_insertionSort recLe l₂).symm)
    (List.sorted_insertionSort recLe l₁) (List.sorted_insertionSort recLe l₂)

/-- Lengths of the decimal rendering, by magnitude. -/
theorem natChars_len2 {n : Nat} (h1 : 10 ≤ n) (h2 : n < 100) :
    (natChars n).length = 2 := by
  rw [natChars_ge10 (by omega), natChars_lt10 (by omega)]
  rfl

theorem natChars_len3 {n : Nat} (h1 : 100 ≤ n) (h2 : n < 1000) :
    (natChars n).length = 3 := by
  rw [natChars_ge10 (by omega), List.length_append,
    natChars_len2 (by omega) (by omega)]
  rfl

theorem natChars_len4 {n : Nat} (h1 : 1000 ≤ n) (h2 : n < 10000) :
    (natChars n).length = 4 := by
  rw [natChars_ge10 (by omega), List.length_append,
    natChars_len3 (by omega) (by omega)]
  rfl

/-- `"%04d"` renders in exactly four characters below 10000. -/
theorem pad4_length {n : Nat} (h : n < 10000) : (pad4 n).length = 4 := by
  unfold pad4
  split_ifs with c1 c2 c3
  · rw [natChars_lt10 c1]
    rfl
  · simp only [List.length_cons]
    rw [natChars_len2 (show 10 ≤ n by omega) c2]
  · simp only [List.length_cons]
    rw [natChars_len3 (show 100 ≤ n by omega) c3]
  · exact natChars_len4 (show 1000 ≤ n by omega) h

/-- `"%02d"` renders in exactly two characters below 100. -/
theorem pad2_length {n : Nat} (h : n < 100) : (pad2 n).length = 2 := by
  unfold pad2
  split_ifs with c1
  · rw [natChars_lt10 c1]
    rfl
  · exact natChars_len2 (show 10 ≤ n by omega) h

/-- The zero-padded renderings still evaluate to the number. -/
theorem digitsVal_pad4 (n : Nat) : digitsVal (pad4 n) = n := by
  unfold pad4
  split_ifs <;>
    simp only [digitsVal_zero_cons, digitsVal_natChars]

theorem digitsVal_pad2 (n : Nat) : digitsVal (pad2 n) = n := by
  unfold pad2
  split_ifs <;>
    simp only [digitsVal_zero_cons, digitsVal_natChars]

/-- The `str(datetime)` rendering is injective on bounded components. -/
theorem dtChars_inj {d1 d2 : DT}
    (w1 : d1.y < 10000 ∧ d1.mo < 100 ∧ d1.d < 100 ∧ d1.h < 100 ∧ d1.mi < 100)
    (w2 : d2.y < 10000 ∧ d2.mo < 100 ∧ d2.d < 100 ∧ d2.h < 100 ∧ d2.mi < 100)
    (heq : dtChars d1 = dtChars d2) : d1 = d2 := by
  obtain ⟨y1, mo1, dd1, hh1, mi1⟩ := d1
  obtain ⟨y2, mo2, dd2, hh2, mi2⟩ := d2
  obtain ⟨wy1, wmo1, wd1, wh1, wmi1⟩ := w1
  obtain ⟨wy2, wmo2, wd2, wh2, wmi2⟩ := w2
  dsimp only at wy1 wmo1 wd1 wh1 wmi1 wy2 wmo2 wd2 wh2 wmi2
  unfold dtChars at heq
  dsimp only at heq
  simp only [List.cons_append, List.append_assoc] at heq
  obtain ⟨ey, heq⟩ := List.append_inj heq (by rw [pad4_length wy1, pad4_length wy2])
  have hy : y1 = y2 := by rw [← digitsVal_pad4 y1, ← digitsVal_pad4 y2, ey]
  injection heq with _ heq
  obtain ⟨emo, heq⟩ := List.append_inj heq (by rw [pad2_length wmo1, pad2_length wmo2])
  have hmo : mo1 = mo2 := by rw [← digitsVal_pad2 mo1, ← digitsVal_pad2 mo2, emo]
  injection heq with _ heq
  obtain ⟨ed, heq⟩ := List.append_inj heq (by rw [pad2_length wd1, pad2_length wd2])
  have hd : dd1 = dd2 := by rw [← digitsVal_pad2 dd1, ← digitsVal_pad2 dd2, ed]
  injection heq with _ heq
  obtain ⟨eh, heq⟩ := List.append_inj heq (by rw [pad2_length wh1, pad2_length wh2])
  have hh : hh1 = hh2 := by rw [← digitsVal_pad2 hh1, ← digitsVal_pad2 hh2, eh]
  injection heq with _ heq
  obtain ⟨emi, _⟩ := List.append_inj heq (by rw [pad2_length wmi1, pad2_length wmi2])
  have hmi : mi1 = mi2 := by rw [← digitsVal_pad2 mi1, ← digitsVal_pad2 mi2, emi]
  rw [hy, hmo, hd, hh, hmi]

/-- The decoded tuple determines the record, under the datetime bounds. -/
theorem recTup_inj {r1 r2 : LaunchRec} (w1 : recWF r1) (w2 : recWF r2)
    (h : recTup r1 = recTup r2) : r1 = r2 := by
  have hmapinj : Function.Injective (List.map Char.toNat) :=
    List.map_injective_iff.mpr (fun a b hab => char_toNat_inj hab)
  obtain ⟨y1, o1, p1, m1, dt1, v1⟩ := r1
  obtain ⟨y2, o2, p2, m2, dt2, v2⟩ := r2
  simp only [recTup, Prod.mk.injEq] at h
  obtain ⟨hy, ho, hp, hm, hdt, hv⟩ := h
  unfold recWF at w1 w2
  have ho' : o1 = o2 := String.ext (hmapinj ho)
  have hp' : p1 = p2 := String.ext (hmapinj hp)
  have hv' : v1 = v2 := String.ext (hmapinj hv)
  have hdt' : dt1 = dt2 := dtChars_inj w1 w2 (hmapinj hdt)
  rw [hy, ho', hp', hm, hdt', hv']

/-- Equal tuple lists of well-formed records are equal record lists. -/
theorem map_recTup_inj : ∀ {l1 l2 : List LaunchRec},
    (∀ r ∈ l1, recWF r) → (∀ r ∈ l2, recWF r) →
    l1.map recTup = l2.map recTup → l1 = l2 := by
  intro l1
  induction l1 with
  | nil =>
    intro l2 _ _ h
    cases l2 with
    | nil => rfl
    | cons r2 t2 => simp at h
  | cons r t ih =>
    intro l2 h1 h2 h
    cases l2 with
    | nil => simp at h
    | cons r2 t2 =>
      simp only [List.map_cons, List.cons.injEq] at h
      rw [recTup_inj (h1 r (List.mem_cons_self r t)) (h2 r2 (List.mem_cons_self r2 t2)) h.1,
        ih (fun x hx => h1 x (List.mem_cons_of_mem r hx))
          (fun x hx => h2 x (List.mem_cons_of_mem r2 hx)) h.2]

/-- C6.  Fingerprint canonicality: the fingerprint is deterministic and
invariant under permutation of the record collection, and the pre-hash
canonical serialization differs whenever the collections differ as
multisets (it determines the collection up to permutation).  The
well-formedness hypotheses are the `datetime` field bounds every real
record satisfies. -/
theorem fingerprint_canonical (sha : String → String) (l₁ l₂ : List LaunchRec)
    (h₁ : ∀ r ∈ l₁, recWF r) (h₂ : ∀ r ∈ l₂, recWF r) :
    (l₁.Perm l₂ → compute_data_hash sha l₁ = compute_data_hash sha l₂) ∧
    (serializeRecords l₁ = serializeRecords l₂ → l₁.Perm l₂) := by
  constructor
  · intro hp
    unfold compute_data_hash serializeRecords serializeChars
    rw [sortRecs_eq_of_perm hp]
  · intro hs
    have hchars : serializeChars l₁ = serializeChars l₂ := congrArg String.data hs
    have hdec : decTop (serializeChars l₁) = decTop (serializeChars l₂) := by rw [hchars]
    rw [decTop_serialize l₁, decTop_serialize l₂, Option.some.injEq] at hdec
    have hw1 : ∀ r ∈ sortRecs l₁, recWF r := fun r hr =>
      h₁ r ((List.mem_insertionSort recLe).mp hr)
    have hw2 : ∀ r ∈ sortRecs l₂, recWF r := fun r hr =>
      h₂ r ((List.mem_insertionSort recLe).mp hr)
    have hsort : sortRecs l₁ = sortRecs l₂ := map_recTup_inj hw1 hw2 hdec
    have hp2 : (sortRecs l₁).Perm l₂ := by
      rw [hsort]
      exact List.perm_insertionSort recLe l₂
    exact (List.perm_insertionSort recLe l₁).symm.trans hp2

/-- Witness for C6: two two-record collections that are permutations of
each other have equal serializations (hence fingerprints for any hash), and
conversely their equal serializations certify the permutation. -/
theorem fingerprint_canonical_witness :
    compute_data_hash (fun s => s) [⟨2015, "GTO", "Starlink-1", 5500,
        ⟨2015, 2, 13, 23, 0⟩, "Falcon 9"⟩, ⟨2010, "LEO", "Dragon", 0,
        ⟨2010, 6, 4, 18, 45⟩, "Falcon 9"⟩] =
      compute_data_hash (fun s => s) [⟨2010, "LEO", "Dragon", 0,
        ⟨2010, 6, 4, 18, 45⟩, "Falcon 9"⟩, ⟨2015, "GTO", "Starlink-1", 5500,
        ⟨2015, 2, 13, 23, 0⟩, "Falcon 9"⟩] ∧
    List.Perm
      [(⟨2015, "GTO", "Starlink-1", 5500, ⟨2015, 2, 13, 23, 0⟩, "Falcon 9"⟩ : LaunchRec),
       ⟨2010, "LEO", "Dragon", 0, ⟨2010, 6, 4, 18, 45⟩, "Falcon 9"⟩]
      [⟨2010, "LEO", "Dragon", 0, ⟨2010, 6, 4, 18, 45⟩, "Falcon 9"⟩,
       ⟨2015, "GTO", "Starlink-1", 5500, ⟨2015, 2, 13, 23, 0⟩, "Falcon 9"⟩] := by
  have hperm : List.Perm
      [(⟨2015, "GTO", "Starlink-1", 5500, ⟨2015, 2, 13, 23, 0⟩, "Falcon 9"⟩ : LaunchRec),
       ⟨2010, "LEO", "Dragon", 0, ⟨2010, 6, 4, 18, 45⟩, "Falcon 9"⟩]
      [⟨2010, "LEO", "Dragon", 0, ⟨2010, 6, 4, 18, 45⟩, "Falcon 9"⟩,
       ⟨2015, "GTO", "Starlink-1", 5500, ⟨2015, 2, 13, 23, 0⟩, "Falcon 9"⟩] :=
    List.Perm.swap _ _ _
  have h1 := (fingerprint_canonical (fun s => s) _ _
    (by decide) (by decide)).1 hperm
  refine ⟨h1, ?_⟩
  exact (fingerprint_canonical (fun s => s) _ _ (by decide) (by decide)).2 h1

end SpacexGraphs
